import Mathlib

/-!
Shallow embedding of the BardAssistant interaction and content-selection
engine (src/lib/insults/insults.cpp) and the debounce/gesture classifier
(src/lib/button/button.cpp).

The content table size `insultCount` is kept as a parameter `n` (the source
computes it from the compiled-in table; the shipped table has 4 entries).
`HISTORY_CAP` equals `insultCount` in the source, so the same `n` is used as
the history capacity.  The Arduino random source is modelled as an infinite
tape `rng : Nat → Nat`; a call `random(0, i + 1)` at tape position `k` yields
`rng k % (i + 1)`, which ranges over exactly the values `0 .. i` the source's
random call can produce.  `uint32_t` time arithmetic is modelled by `sub32`.
Serial prints and NVS byte-shuffling are external I/O and are dropped; the
NVS blob is modelled as an optional record carrying the persisted keys.
-/

namespace Bard

/-- Unsigned 32-bit subtraction `x - y` as used for elapsed-time checks. -/
def sub32 (x y : Nat) : Nat :=
  (x % 4294967296 + 4294967296 - y % 4294967296) % 4294967296

/-- MOCK_WORK_MS: simulated work duration for operations. -/
def MOCK_WORK_MS : Nat := 800

/-- NVS_MAGIC: magic marker validating saved state. -/
def NVS_MAGIC : Nat := 0xBADC0FFE

/-- PendingAction from insults.h. -/
inductive PendingAction where
  | none
  | random
  | next
  | prev
deriving DecidableEq

/-- OperationPhase (internal enum of insults.cpp). -/
inductive OperationPhase where
  | idle
  | waiting
deriving DecidableEq

/-- The module-level mutable state of insults.cpp: deck, history ring
buffer, current index and the transient operation state.  `rngTape` is the
read position into the random tape (models the external RNG's advancing
internal state). -/
structure EngineState where
  deck : List Nat
  deckPosition : Nat
  history : List Nat
  historyHead : Nat
  historySize : Nat
  historyPosition : Nat
  currentInsultIndex : Nat
  pendingAction : PendingAction
  operationPhase : OperationPhase
  operationIsNewInsult : Bool
  operationStartedAt : Nat
  pendingInsultIndex : Nat
  rngTape : Nat
deriving DecidableEq

/-- One in-place swap `tmp = deck[i]; deck[i] = deck[r]; deck[r] = tmp`. -/
def listSwap (l : List Nat) (i j : Nat) : List Nat :=
  (l.set i (l.getD j 0)).set j (l.getD i 0)

/-- The Fisher-Yates loop of `initDeck`: for `i` from the start index down
to 1, swap `deck[i]` with `deck[random(0, i + 1)]`.  Structured recursion on
the loop counter; faithful for `insultCount >= 1`, where the source's
`size_t i = insultCount - 1` start does not underflow (the `insultCount == 0`
underflow is modelled separately by `fisherYatesStartIndexSizeT`). -/
def fyLoop (rng : Nat → Nat) (deck : List Nat) (tape i : Nat) : List Nat × Nat :=
  match i with
  | 0 => (deck, tape)
  | k + 1 =>
    let r := rng tape % (k + 2)
    fyLoop rng (listSwap deck (k + 1) r) (tape + 1) k

/-- initDeck: populate the deck with indices `0 .. n-1`, shuffle it, and
reset the draw position. -/
def initDeck (rng : Nat → Nat) (n : Nat) (s : EngineState) : EngineState :=
  let (d, t) := fyLoop rng (List.range n) s.rngTape (n - 1)
  { s with deck := d, deckPosition := 0, rngTape := t }

/-- The loop start index `size_t i = insultCount - 1` of initDeck computed
in `size_t` (64-bit unsigned) arithmetic, where `0 - 1` wraps around. -/
def fisherYatesStartIndexSizeT (n : Nat) : Nat :=
  (n + 18446744073709551615) % 18446744073709551616

/-- Whether the shuffle loop body of initDeck executes at all: the source
loop runs while `i > 0`, starting at `insultCount - 1` in `size_t`. -/
def fisherYatesLoopBodyRuns (n : Nat) : Bool :=
  decide (0 < fisherYatesStartIndexSizeT n)

/-- drawFromDeck: draw the next insult index from the shuffled deck,
reshuffling first when the deck is exhausted; returns the sentinel 0 when no
insults are configured. -/
def drawFromDeck (rng : Nat → Nat) (n : Nat) (s : EngineState) : Nat × EngineState :=
  if n = 0 then
    (0, s)
  else
    let s1 := if n ≤ s.deckPosition then initDeck rng n s else s
    (s1.deck.getD s1.deckPosition 0, { s1 with deckPosition := s1.deckPosition + 1 })

/-- Whether a call to drawFromDeck in state `s` takes the reshuffle branch
(`deckPosition >= insultCount`, reached only when `insultCount != 0`). -/
def drawTriggersReshuffle (n : Nat) (s : EngineState) : Bool :=
  decide (0 < n ∧ n ≤ s.deckPosition)

/-- wrapIndex from insults.cpp. -/
def wrapIndex (index mod : Nat) : Nat :=
  if mod = 0 then 0 else index % mod

/-- historyOldestPhysicalIndex: physical index of the oldest ring-buffer
entry, `(head + CAP - size) mod CAP`. -/
def historyOldestPhysicalIndex (n : Nat) (s : EngineState) : Nat :=
  if n = 0 then 0 else wrapIndex (s.historyHead + n - s.historySize) n

/-- historyGetAtLogical: read a history entry by logical position
(0 = oldest .. size-1 = newest); the source's bool-and-out-param shape is
rendered as an Option. -/
def historyGetAtLogical (n : Nat) (s : EngineState) (logicalPos : Nat) : Option Nat :=
  if n = 0 ∨ s.historySize = 0 then
    Option.none
  else if s.historySize ≤ logicalPos then
    Option.none
  else
    Option.some (s.history.getD (wrapIndex (historyOldestPhysicalIndex n s + logicalPos) n) 0)

/-- appendToHistory: write at `head`, advance `head` mod CAP, grow `size` up
to CAP, then snap the cursor to the newest entry. -/
def appendToHistory (n : Nat) (s : EngineState) (index : Nat) : EngineState :=
  if n = 0 then
    s
  else
    let size' := if s.historySize < n then s.historySize + 1 else s.historySize
    { s with
      history := s.history.set s.historyHead index
      historyHead := wrapIndex (s.historyHead + 1) n
      historySize := size'
      historyPosition := size' - 1 }

/-- beginWorkFor: prepare internal state for a user action, choosing the
index shown once the simulated work completes.  Random always draws; Prev
moves back within history when possible; Next moves forward within history
or draws fresh at the end. -/
def beginWorkFor (rng : Nat → Nat) (n : Nat) (action : PendingAction)
    (s : EngineState) : Bool × EngineState :=
  let s0 := { s with operationIsNewInsult := false }
  match action with
  | PendingAction.random =>
    let (idx, s1) := drawFromDeck rng n s0
    (true, { s1 with
      pendingInsultIndex := idx
      operationIsNewInsult := true
      operationPhase := OperationPhase.waiting })
  | PendingAction.prev =>
    if s0.historySize = 0 then
      (false, s0)
    else if s0.historyPosition = 0 then
      (false, s0)
    else
      let s1 := { s0 with historyPosition := s0.historyPosition - 1 }
      match historyGetAtLogical n s1 s1.historyPosition with
      | Option.none => (false, s1)
      | Option.some idx =>
        (true, { s1 with
          pendingInsultIndex := idx
          operationPhase := OperationPhase.waiting })
  | PendingAction.next =>
    if s0.historySize = 0 then
      let (idx, s1) := drawFromDeck rng n s0
      (true, { s1 with
        pendingInsultIndex := idx
        operationIsNewInsult := true
        operationPhase := OperationPhase.waiting })
    else if s0.historyPosition < s0.historySize - 1 then
      let s1 := { s0 with historyPosition := s0.historyPosition + 1 }
      match historyGetAtLogical n s1 s1.historyPosition with
      | Option.none => (false, s1)
      | Option.some idx =>
        (true, { s1 with
          pendingInsultIndex := idx
          operationPhase := OperationPhase.waiting })
    else
      let (idx, s1) := drawFromDeck rng n s0
      (true, { s1 with
        pendingInsultIndex := idx
        operationIsNewInsult := true
        operationPhase := OperationPhase.waiting })
  | PendingAction.none => (false, s0)

/-- insultsStartOperation: start a mocked operation; on rejection the
operation state is reset to Idle and false is returned. -/
def insultsStartOperation (rng : Nat → Nat) (n : Nat) (action : PendingAction)
    (now : Nat) (s : EngineState) : Bool × EngineState :=
  let s1 := { s with
    pendingAction := action
    operationPhase := OperationPhase.idle
    operationIsNewInsult := false
    operationStartedAt := now }
  let (ok, s2) := beginWorkFor rng n action s1
  if ok then
    (true, s2)
  else
    (false, { s2 with
      pendingAction := PendingAction.none
      operationPhase := OperationPhase.idle
      operationIsNewInsult := false })

/-- The completion block of insultsPoll, run once the mock latency elapsed:
apply the pending index, maintain history semantics (Random always appends,
Next appends only when it generated a new insult, Prev never appends) and
reset the operation state to Idle. -/
def completeOperation (n : Nat) (s : EngineState) : EngineState :=
  let completed := s.pendingAction
  let s1 := { s with currentInsultIndex := s.pendingInsultIndex }
  let s2 :=
    if completed = PendingAction.random then
      appendToHistory n s1 s1.currentInsultIndex
    else if completed = PendingAction.next ∧ s1.operationIsNewInsult then
      appendToHistory n s1 s1.currentInsultIndex
    else
      s1
  { s2 with
    pendingAction := PendingAction.none
    operationPhase := OperationPhase.idle
    operationIsNewInsult := false }

/-- insultsPoll: advance the mocked operation; returns true exactly once
when the operation completes. -/
def insultsPoll (n : Nat) (now : Nat) (s : EngineState) : Bool × EngineState :=
  if s.operationPhase ≠ OperationPhase.waiting then
    (false, s)
  else if sub32 now s.operationStartedAt < MOCK_WORK_MS then
    (false, s)
  else
    (true, completeOperation n s)

/-- The persisted blob: magic marker, current index, history head, size,
cursor, and the raw history bytes (one Nat per uint16 slot). -/
structure Blob where
  magic : Nat
  cur : Nat
  head : Nat
  size : Nat
  pos : Nat
  hist : List Nat
deriving DecidableEq

/-- loadInsultsStateFromNvs: validate and apply a saved blob.  `Option.none`
models an absent/unopenable NVS namespace.  Mirrors the source order: the
magic and byte-length checks come first, then the raw history bytes are
copied into the live buffer, and only then is the metadata validated and
applied. -/
def loadInsultsStateFromNvs (n : Nat) (b? : Option Blob) (s : EngineState) :
    Bool × EngineState :=
  match b? with
  | Option.none => (false, s)
  | Option.some b =>
    if b.magic ≠ NVS_MAGIC then
      (false, s)
    else if b.hist.length ≠ n then
      (false, s)
    else
      let s1 := { s with history := b.hist }
      if n = 0 then
        (false, s1)
      else
        let curValid := b.cur < n
        let sizeValid := b.size ≤ n
        let headValid := b.head < n
        let posValid := b.pos ≤ (if b.size = 0 then 0 else b.size - 1)
        if curValid ∧ sizeValid ∧ headValid ∧ posValid then
          (true, { s1 with
            historyHead := b.head
            historySize := b.size
            historyPosition := b.pos
            currentInsultIndex := b.cur })
        else
          (false, s1)

/-- insultsInit: always rebuild the deck; on cold boot reset history and
optionally draw and show a first insult; on wake try the NVS restore and
fall back to drawing one item and seeding a single-entry history. -/
def insultsInit (rng : Nat → Nat) (n : Nat) (printInsultOnBoot wokeFromSleep : Bool)
    (b? : Option Blob) (s : EngineState) : Bool × EngineState :=
  let s0 := initDeck rng n s
  if !wokeFromSleep then
    let s1 := { s0 with historyHead := 0, historySize := 0, historyPosition := 0 }
    if printInsultOnBoot ∧ 0 < n then
      let (idx, s2) := drawFromDeck rng n s1
      let s3 := appendToHistory n { s2 with currentInsultIndex := idx } idx
      (true, s3)
    else
      (false, s1)
  else
    match loadInsultsStateFromNvs n b? s0 with
    | (true, s1) => (true, s1)
    | (false, s1) =>
      if n = 0 then
        (false, s1)
      else
        let (idx, s2) := drawFromDeck rng n s1
        let s3 := { s2 with
          currentInsultIndex := idx
          historyHead := 0
          historySize := 0
          historyPosition := 0 }
        (true, appendToHistory n s3 idx)

/-- The renderer's invalid-index guard in renderInsultAtIndex: with a
non-empty content table it warns whenever `index >= insultCount`. -/
def renderWarnsInvalidIndex (n idx : Nat) : Bool :=
  decide (0 < n) && decide (n ≤ idx)

/-- Well-formedness of the physical history buffer: the buffer has exactly
`HISTORY_CAP = n` slots, the write head is a valid slot, and the entry count
does not exceed the capacity.  Holds for the compiled-in RTC arrays. -/
def HistWF (n : Nat) (s : EngineState) : Prop :=
  s.history.length = n ∧ s.historyHead < n ∧ s.historySize ≤ n

/-- The logical content of the history ring buffer, oldest first: entry `l`
is what `historyGetAtLogical` returns at logical position `l`. -/
def historyAbs (n : Nat) (s : EngineState) : List Nat :=
  (List.range s.historySize).map
    (fun l => s.history.getD (wrapIndex (historyOldestPhysicalIndex n s + l) n) 0)

/-- Appending a whole sequence of indices, one appendToHistory call per
element, oldest first. -/
def appendAll (n : Nat) (s : EngineState) (xs : List Nat) : EngineState :=
  xs.foldl (appendToHistory n) s

/-- A concrete engine state with `n` zeroed slots, matching the
zero-initialized RTC arrays of the source at power-on. -/
def zeroState (n : Nat) : EngineState :=
  { deck := List.replicate n 0
    deckPosition := 0
    history := List.replicate n 0
    historyHead := 0
    historySize := 0
    historyPosition := 0
    currentInsultIndex := 0
    pendingAction := PendingAction.none
    operationPhase := OperationPhase.idle
    operationIsNewInsult := false
    operationStartedAt := 0
    pendingInsultIndex := 0
    rngTape := 0 }

/-- The validation performed by loadInsultsStateFromNvs on a present blob:
magic marker, stored byte length, and the metadata range checks. -/
def blobChecksPass (n : Nat) (b : Blob) : Prop :=
  b.magic = NVS_MAGIC ∧ b.hist.length = n ∧ b.cur < n ∧ b.size ≤ n ∧ b.head < n ∧
    b.pos ≤ (if b.size = 0 then 0 else b.size - 1)

instance (n : Nat) (b : Blob) : Decidable (blobChecksPass n b) := by
  unfold blobChecksPass
  infer_instance

/-- The corrupted blob of the C3 counterexample: cursor exceeds size - 1,
and its history bytes differ from the live buffer. -/
def c3BadBlob : Blob :=
  { magic := NVS_MAGIC, cur := 0, head := 1, size := 1, pos := 5, hist := [9, 9, 9, 9] }

/-- Consecutive begin(StepBackward) calls, rejected or not; the state
component of each call is threaded to the next. -/
def beginPrevIter (rng : Nat → Nat) (n now : Nat) : Nat → EngineState → EngineState
  | 0, s => s
  | k + 1, s =>
    beginPrevIter rng n now k (insultsStartOperation rng n PendingAction.prev now s).2

/-- A concrete state with a size-2 history and the cursor on the newest
entry. -/
def c5State : EngineState :=
  { zeroState 4 with
    history := [3, 1, 0, 0], historyHead := 2, historySize := 2, historyPosition := 1 }

/-- A concrete state whose cursor already sits at the oldest entry. -/
def c5Rejected : EngineState :=
  { zeroState 4 with
    history := [3, 0, 0, 0], historyHead := 1, historySize := 1, historyPosition := 0 }

/-- The operation-state reset applied at the end of insultsPoll. -/
def finishOp (t : EngineState) : EngineState :=
  { t with
    pendingAction := PendingAction.none
    operationPhase := OperationPhase.idle
    operationIsNewInsult := false }

/-- A concrete state with a size-3 history and the cursor on the oldest
entry, leaving room to step forward inside the history. -/
def c4Mid : EngineState :=
  { zeroState 4 with
    history := [0, 1, 2, 0], historyHead := 3, historySize := 3, historyPosition := 0 }

/-- The state after an accepted Prev start on the concrete c5State, used by
the C1 witness. -/
def c1S1 : EngineState :=
  { c5State with
    pendingAction := PendingAction.prev
    operationPhase := OperationPhase.waiting
    operationIsNewInsult := false
    operationStartedAt := 10
    historyPosition := 0
    pendingInsultIndex := 3 }

/-- The history cursor invariant: whenever the history is non-empty the
cursor lies within `[0, size - 1]` (the lower bound is inherent to Nat). -/
def CursorInv (s : EngineState) : Prop :=
  0 < s.historySize → s.historyPosition < s.historySize

/-- A run of consecutive drawFromDeck calls; each element records the drawn
index and whether that call took the reshuffle branch. -/
def drawSeq (rng : Nat → Nat) (n : Nat) : Nat → EngineState → List (Nat × Bool) × EngineState
  | 0, s => ([], s)
  | k + 1, s =>
    let r := drawFromDeck rng n s
    let rest := drawSeq rng n k r.2
    ((r.1, drawTriggersReshuffle n s) :: rest.1, rest.2)

/-- DEBOUNCE_TIME_MS from button.cpp. -/
def DEBOUNCE_TIME_MS : Nat := 30

/-- HOLD_THRESHOLD_MS from button.cpp. -/
def HOLD_THRESHOLD_MS : Nat := 800

/-- ButtonState from button.h. -/
inductive ButtonState where
  | idle
  | pressed
deriving DecidableEq

/-- ButtonEvent from button.h; the source's `None` is rendered `noEvent`. -/
inductive ButtonEvent where
  | noEvent
  | tap
  | holdStart
  | holdEnd
deriving DecidableEq

/-- The Button state container from button.h.  `lastReading` and the raw
sample are Bools where `true` is the electrical LOW level (circuit closed,
button physically pressed), so `pressedNow = raw` directly. -/
structure Button where
  lastReading : Bool
  state : ButtonState
  lastDebounceTime : Nat
  pressedAt : Nat
  holdFired : Bool
deriving DecidableEq

/-- buttonInit: establish a known baseline from the current raw level. -/
def buttonInit (level : Bool) (now : Nat) : Button :=
  { lastReading := level
    state := ButtonState.idle
    lastDebounceTime := now
    pressedAt := 0
    holdFired := false }

/-- updateButton from button.cpp: debounce reset on any raw change, then the
debounced transitions (press, release deciding Tap vs HoldEnd) and the hold
threshold check. -/
def updateButton (b : Button) (raw : Bool) (now : Nat) : ButtonEvent × Button :=
  if raw ≠ b.lastReading then
    (ButtonEvent.noEvent, { b with lastDebounceTime := now, lastReading := raw })
  else if sub32 now b.lastDebounceTime < DEBOUNCE_TIME_MS then
    (ButtonEvent.noEvent, b)
  else if raw = true ∧ b.state = ButtonState.idle then
    (ButtonEvent.noEvent,
     { b with state := ButtonState.pressed, pressedAt := now, holdFired := false })
  else if raw = false ∧ b.state = ButtonState.pressed then
    (if b.holdFired then ButtonEvent.holdEnd else ButtonEvent.tap,
     { b with state := ButtonState.idle })
  else if b.state = ButtonState.pressed ∧ b.holdFired = false ∧
      HOLD_THRESHOLD_MS ≤ sub32 now b.pressedAt then
    (ButtonEvent.holdStart, { b with holdFired := true })
  else
    (ButtonEvent.noEvent, b)

/-- Repeated once-per-tick polling: process raw samples `f t, f (t+1), ...`
for `k` ticks, collecting the emitted events. -/
def runButton (f : Nat → Bool) : Nat → Nat → Button → Button × List ButtonEvent
  | _, 0, b => (b, [])
  | t, k + 1, b =>
    let r := updateButton b (f t) t
    let rest := runButton f (t + 1) k r.2
    (rest.1, r.1 :: rest.2)

/-- A single clean (bounce-free) press: the raw level is LOW (pressed)
exactly during `[a, a + L)`. -/
def pressWindow (a L : Nat) : Nat → Bool :=
  fun now => decide (a ≤ now ∧ now < a + L)

/-- Every engine-held index is in range: the live history buffer is
well-formed, the current and pending indices and all deck entries are below
the content count, and so is every logical history entry. -/
def GoodIdx (n : Nat) (s : EngineState) : Prop :=
  HistWF n s ∧
  s.currentInsultIndex < n ∧
  s.pendingInsultIndex < n ∧
  (∀ x ∈ s.deck, x < n) ∧
  (∀ x ∈ historyAbs n s, x < n)

theorem historyAbs_length (n : Nat) (s : EngineState) :
    (historyAbs n s).length = s.historySize := by
  simp [historyAbs]

theorem historyGetAtLogical_eq_abs (n : Nat) (s : EngineState) (hn : 0 < n) (l : Nat) :
    historyGetAtLogical n s l = (historyAbs n s)[l]? := by
  rcases Nat.lt_or_ge l s.historySize with hl | hl
  · unfold historyGetAtLogical historyAbs
    rw [if_neg (by omega), if_neg (by omega)]
    rw [List.getElem?_map, List.getElem?_range hl]
    rfl
  · have habs : (historyAbs n s)[l]? = Option.none :=
      List.getElem?_eq_none (by rw [historyAbs_length]; exact hl)
    rw [habs]
    unfold historyGetAtLogical
    by_cases h0 : s.historySize = 0
    · rw [if_pos (Or.inr h0)]
    · rw [if_neg (by omega), if_pos hl]

theorem count_getElem_le (l : List Nat) (i : Nat) (hi : i < l.length) (a : Nat) :
    (if (l[i] == a) = true then 1 else 0) ≤ List.count a l := by
  by_cases h : l[i] = a
  · simp [h]
    exact h ▸ List.getElem_mem hi
  · simp [h]

theorem listSwap_perm (l : List Nat) (i j : Nat) (hi : i < l.length) (hj : j < l.length) :
    (listSwap l i j).Perm l := by
  rw [List.perm_iff_count]
  intro a
  unfold listSwap
  have hj' : j < (l.set i (l.getD j 0)).length := by simpa using hj
  rw [List.count_set _ _ _ _ hj', List.count_set _ _ _ _ hi]
  rw [List.getElem_set]
  have e1 : l.getD i 0 = l[i] := List.getD_eq_getElem _ _ hi
  have e2 : l.getD j 0 = l[j] := List.getD_eq_getElem _ _ hj
  have h1 := count_getElem_le l i hi a
  by_cases hij : i = j
  · subst hij
    rw [if_pos rfl]
    simp only [e1]
    omega
  · rw [if_neg hij]
    simp only [e1, e2]
    omega

theorem listSwap_length (l : List Nat) (i j : Nat) : (listSwap l i j).length = l.length := by
  simp [listSwap]

theorem add_mod_ne_self {a m n : Nat} (ha : a < n) (hm0 : 0 < m) (hmn : m < n) :
    (a + m) % n ≠ a := by
  rcases Nat.lt_or_ge (a + m) n with h | h
  · rw [Nat.mod_eq_of_lt h]
    omega
  · rw [Nat.mod_eq_sub_mod h, Nat.mod_eq_of_lt (by omega)]
    omega

theorem getD_set_self (l : List Nat) (i x : Nat) (h : i < l.length) :
    (l.set i x).getD i 0 = x := by
  rw [List.getD_eq_getElem?_getD, List.getElem?_set, if_pos rfl, if_pos h]
  rfl

theorem getD_set_ne (l : List Nat) (i x p : Nat) (h : i ≠ p) :
    (l.set i x).getD p 0 = l.getD p 0 := by
  rw [List.getD_eq_getElem?_getD, List.getElem?_set, if_neg h, ← List.getD_eq_getElem?_getD]

theorem appendToHistory_WF (n : Nat) (s : EngineState) (x : Nat) (h : HistWF n s) :
    HistWF n (appendToHistory n s x) := by
  obtain ⟨hlen, hh, hs⟩ := h
  have hn : 0 < n := Nat.lt_of_le_of_lt (Nat.zero_le _) hh
  unfold appendToHistory
  rw [if_neg (by omega)]
  refine ⟨by simpa using hlen, ?_, ?_⟩
  · simpa [wrapIndex, hn.ne'] using Nat.mod_lt _ hn
  · simp only []
    split <;> omega

/-- Appending shifts the logical history: the new content is the old content
with `x` appended, truncated to the most recent `n` entries (the dropped
prefix is empty while the buffer still has room and is exactly the oldest
entry once it is full). -/
theorem historyAbs_append (n : Nat) (s : EngineState) (x : Nat) (h : HistWF n s) :
    historyAbs n (appendToHistory n s x)
      = (historyAbs n s).drop (s.historySize + 1 - n) ++ [x] := by
  obtain ⟨hlen, hh, hs⟩ := h
  have hn : 0 < n := Nat.lt_of_le_of_lt (Nat.zero_le _) hh
  have hheadlt : s.historyHead < s.history.length := by omega
  unfold appendToHistory
  rw [if_neg (by omega)]
  by_cases hcase : s.historySize < n
  · -- room left: nothing dropped
    have hd0 : s.historySize + 1 - n = 0 := by omega
    rw [hd0, List.drop_zero]
    unfold historyAbs historyOldestPhysicalIndex wrapIndex
    simp only [if_neg hn.ne', hcase, if_pos]
    have holdest :
        ((s.historyHead + 1) % n + n - (s.historySize + 1)) % n
          = (s.historyHead + n - s.historySize) % n := by
      have e1 : (s.historyHead + 1) % n + n - (s.historySize + 1)
          = (s.historyHead + 1) % n + (n - s.historySize - 1) := by omega
      have e2 : s.historyHead + n - s.historySize
          = s.historyHead + (n - s.historySize) := by omega
      rw [e1, e2, Nat.mod_add_mod]
      congr 1
      omega
    rw [holdest]
    rw [List.range_succ, List.map_append]
    congr 1
    · apply List.map_congr_left
      intro l hl
      have hl' : l < s.historySize := List.mem_range.mp hl
      have hslot :
          ((s.historyHead + n - s.historySize) % n + l) % n
            = (s.historyHead + (n - s.historySize + l)) % n := by
        have e2 : s.historyHead + n - s.historySize
            = s.historyHead + (n - s.historySize) := by omega
        rw [e2, Nat.mod_add_mod, Nat.add_assoc]
      rw [hslot]
      exact getD_set_ne _ _ _ _
        (fun hcon => add_mod_ne_self hh (by omega) (by omega) hcon.symm)
    · have hslot :
          ((s.historyHead + n - s.historySize) % n + s.historySize) % n
            = s.historyHead := by
        have e2 : s.historyHead + n - s.historySize
            = s.historyHead + (n - s.historySize) := by omega
        rw [e2, Nat.mod_add_mod]
        have e3 : s.historyHead + (n - s.historySize) + s.historySize
            = s.historyHead + n := by omega
        rw [e3, Nat.add_mod_right, Nat.mod_eq_of_lt hh]
      rw [List.map_cons, List.map_nil, hslot, getD_set_self _ _ _ hheadlt]
  · -- buffer full: the oldest entry is evicted
    have hsz : s.historySize = n := by omega
    have hd1 : s.historySize + 1 - n = 1 := by omega
    rw [hd1]
    rw [if_neg hcase]
    unfold historyAbs historyOldestPhysicalIndex wrapIndex
    simp only [if_neg hn.ne', hsz]
    have holdest0 : (s.historyHead + n - n) % n = s.historyHead := by
      have e : s.historyHead + n - n = s.historyHead := by omega
      rw [e, Nat.mod_eq_of_lt hh]
    have holdest1 : ((s.historyHead + 1) % n + n - n) % n = (s.historyHead + 1) % n := by
      have e : (s.historyHead + 1) % n + n - n = (s.historyHead + 1) % n := by omega
      rw [e, Nat.mod_eq_of_lt (Nat.mod_lt _ hn)]
    rw [holdest0, holdest1]
    have epred : n - 1 + 1 = n := by omega
    have hrange : List.range n = List.range (n - 1) ++ [n - 1] := by
      conv_lhs => rw [← epred]
      exact List.range_succ (n - 1)
    have hrange2 : List.range n = 0 :: List.map Nat.succ (List.range (n - 1)) := by
      conv_lhs => rw [← epred]
      exact List.range_succ_eq_map (n - 1)
    conv_lhs => rw [hrange, List.map_append]
    conv_rhs => rw [hrange2, List.map_cons, List.drop_one, List.tail_cons, List.map_map]
    congr 1
    · apply List.map_congr_left
      intro l hl
      have hl' : l < n - 1 := List.mem_range.mp hl
      have hslot : ((s.historyHead + 1) % n + l) % n = (s.historyHead + (l + 1)) % n := by
        rw [Nat.mod_add_mod]
        congr 1
        omega
      rw [hslot]
      rw [getD_set_ne _ _ _ _
        (fun hcon => add_mod_ne_self hh (by omega) (by omega) hcon.symm)]
      simp [Function.comp, Nat.succ_eq_add_one]
    · have hslot : ((s.historyHead + 1) % n + (n - 1)) % n = s.historyHead := by
        rw [Nat.mod_add_mod]
        have e : s.historyHead + 1 + (n - 1) = s.historyHead + n := by omega
        rw [e, Nat.add_mod_right, Nat.mod_eq_of_lt hh]
      simp only [List.map_cons, List.map_nil]
      rw [hslot, getD_set_self _ _ _ hheadlt]

theorem appendToHistory_size (n : Nat) (s : EngineState) (x : Nat) (hn : 0 < n) :
    (appendToHistory n s x).historySize
      = if s.historySize < n then s.historySize + 1 else s.historySize := by
  unfold appendToHistory
  rw [if_neg hn.ne']

theorem appendAll_WF (n : Nat) (s : EngineState) (xs : List Nat) (h : HistWF n s) :
    HistWF n (appendAll n s xs) := by
  induction xs generalizing s with
  | nil => exact h
  | cons x rest ih =>
    exact ih _ (appendToHistory_WF n s x h)

/-- historyAbs_append with the drop applied to the extended list; equal to
the other form because the dropped prefix never reaches the new entry. -/
theorem historyAbs_append2 (n : Nat) (s : EngineState) (x : Nat) (h : HistWF n s) :
    historyAbs n (appendToHistory n s x)
      = ((historyAbs n s) ++ [x]).drop (s.historySize + 1 - n) := by
  have hn : 0 < n := Nat.lt_of_le_of_lt (Nat.zero_le _) h.2.1
  have habslen : (historyAbs n s).length = s.historySize := historyAbs_length n s
  rw [historyAbs_append n s x h, List.drop_append_eq_append_drop]
  have hz : s.historySize + 1 - n - (historyAbs n s).length = 0 := by omega
  rw [hz, List.drop_zero]

theorem appendAll_abs (n : Nat) (s : EngineState) (xs : List Nat) (h : HistWF n s) :
    historyAbs n (appendAll n s xs)
      = ((historyAbs n s) ++ xs).drop (s.historySize + xs.length - n) := by
  induction xs generalizing s with
  | nil =>
    simp only [appendAll, List.foldl_nil, List.append_nil, List.length_nil, Nat.add_zero]
    have hd0 : s.historySize - n = 0 := by
      have := h.2.2
      omega
    rw [hd0, List.drop_zero]
  | cons x rest ih =>
    have hn : 0 < n := Nat.lt_of_le_of_lt (Nat.zero_le _) h.2.1
    have hWF' := appendToHistory_WF n s x h
    have habslen : (historyAbs n s).length = s.historySize := historyAbs_length n s
    have hlenx : (historyAbs n s ++ [x]).length = s.historySize + 1 := by
      simp [habslen]
    have hstep := historyAbs_append2 n s x h
    have hsize' := appendToHistory_size n s x hn
    have hrw : appendAll n s (x :: rest) = appendAll n (appendToHistory n s x) rest := rfl
    rw [hrw, ih _ hWF', hstep, hsize']
    have hsplit : ((historyAbs n s ++ [x]).drop (s.historySize + 1 - n)) ++ rest
        = ((historyAbs n s ++ [x]) ++ rest).drop (s.historySize + 1 - n) := by
      conv_rhs => rw [List.drop_append_eq_append_drop]
      have hz : s.historySize + 1 - n - (historyAbs n s ++ [x]).length = 0 := by omega
      rw [hz, List.drop_zero]
    rw [hsplit, List.drop_drop]
    rw [List.append_assoc, List.singleton_append]
    congr 1
    have hle := h.2.2
    have hlr : (x :: rest).length = rest.length + 1 := by simp
    rw [hlr]
    split <;> omega

/-- C2: for a history of capacity `n`, appending a sequence of more than `n`
indices always leaves `size == n`, and the history retains exactly the most
recent `n` appended indices in order, oldest-first via `get(0)`: once full,
each append overwrites the oldest slot (ring-buffer eviction) rather than
being dropped. -/
theorem C2_history_ring_eviction (n : Nat) (s : EngineState) (xs : List Nat) (l : Nat)
    (hWF : HistWF n s) (hlen : n < xs.length) (hl : l < n) :
    (appendAll n s xs).historySize = n ∧
    historyGetAtLogical n (appendAll n s xs) l = xs[xs.length - n + l]? := by
  obtain ⟨hlenh, hh, hs⟩ := hWF
  have hn : 0 < n := Nat.lt_of_le_of_lt (Nat.zero_le _) hh
  have habs := appendAll_abs n s xs ⟨hlenh, hh, hs⟩
  have habslen : (historyAbs n s).length = s.historySize := historyAbs_length n s
  have hsz : (appendAll n s xs).historySize = n := by
    have h1 := historyAbs_length n (appendAll n s xs)
    rw [habs] at h1
    simp only [List.length_drop, List.length_append, habslen] at h1
    omega
  refine ⟨hsz, ?_⟩
  rw [historyGetAtLogical_eq_abs n _ hn l, habs, List.getElem?_drop,
    List.getElem?_append]
  rw [if_neg (by omega)]
  congr 1
  omega

/-- C2 witness: a concrete run at capacity 2 with three appended indices. -/
theorem C2_history_ring_eviction_witness :
    (appendAll 2 (zeroState 2) [5, 6, 7]).historySize = 2 ∧
    historyGetAtLogical 2 (appendAll 2 (zeroState 2) [5, 6, 7]) 0
      = ([5, 6, 7] : List Nat)[([5, 6, 7] : List Nat).length - 2 + 0]? :=
  C2_history_ring_eviction 2 (zeroState 2) [5, 6, 7] 0
    (by unfold HistWF; decide) (by decide) (by decide)

theorem load_fst_iff (n : Nat) (s : EngineState) (b : Blob) (hn : 0 < n) :
    (loadInsultsStateFromNvs n (Option.some b) s).1 = true ↔ blobChecksPass n b := by
  by_cases hm : b.magic = NVS_MAGIC
  · by_cases hlen : b.hist.length = n
    · by_cases hv : b.cur < n ∧ b.size ≤ n ∧ b.head < n ∧
          b.pos ≤ (if b.size = 0 then 0 else b.size - 1)
      · simp only [loadInsultsStateFromNvs]
        rw [if_neg (by simp [hm]), if_neg (by simp [hlen]), if_neg (by omega), if_pos hv]
        simp only [true_iff]
        exact ⟨hm, hlen, hv.1, hv.2.1, hv.2.2.1, hv.2.2.2⟩
      · simp only [loadInsultsStateFromNvs]
        rw [if_neg (by simp [hm]), if_neg (by simp [hlen]), if_neg (by omega), if_neg hv]
        simp only [Bool.false_eq_true, false_iff]
        exact fun hc => hv ⟨hc.2.2.1, hc.2.2.2.1, hc.2.2.2.2.1, hc.2.2.2.2.2⟩
    · simp only [loadInsultsStateFromNvs]
      rw [if_neg (by simp [hm]), if_pos (by simpa using hlen)]
      simp only [Bool.false_eq_true, false_iff]
      exact fun hc => hlen hc.2.1
  · simp only [loadInsultsStateFromNvs]
    rw [if_pos (by simpa using hm)]
    simp only [Bool.false_eq_true, false_iff]
    exact fun hc => hm hc.1

theorem load_success_state (n : Nat) (s : EngineState) (b : Blob) (hn : 0 < n)
    (h : blobChecksPass n b) :
    loadInsultsStateFromNvs n (Option.some b) s
      = (true, { s with
          history := b.hist
          historyHead := b.head
          historySize := b.size
          historyPosition := b.pos
          currentInsultIndex := b.cur }) := by
  obtain ⟨hm, hl, hc, hs, hh, hp⟩ := h
  simp only [loadInsultsStateFromNvs]
  rw [if_neg (by simp [hm]), if_neg (by simp [hl]), if_neg (by omega),
    if_pos ⟨hc, hs, hh, hp⟩]

theorem load_failure_state (n : Nat) (s : EngineState) (b : Blob) (hn : 0 < n)
    (h : ¬ blobChecksPass n b) :
    (loadInsultsStateFromNvs n (Option.some b) s).1 = false ∧
    (loadInsultsStateFromNvs n (Option.some b) s).2.historyHead = s.historyHead ∧
    (loadInsultsStateFromNvs n (Option.some b) s).2.historySize = s.historySize ∧
    (loadInsultsStateFromNvs n (Option.some b) s).2.historyPosition = s.historyPosition ∧
    (loadInsultsStateFromNvs n (Option.some b) s).2.currentInsultIndex
      = s.currentInsultIndex := by
  have hfst : (loadInsultsStateFromNvs n (Option.some b) s).1 = false := by
    have := load_fst_iff n s b hn
    rcases Bool.eq_false_or_eq_true (loadInsultsStateFromNvs n (Option.some b) s).1 with
      hb | hb
    · exact absurd (this.mp hb) h
    · exact hb
  refine ⟨hfst, ?_⟩
  by_cases hm : b.magic = NVS_MAGIC
  · by_cases hlen : b.hist.length = n
    · by_cases hv : b.cur < n ∧ b.size ≤ n ∧ b.head < n ∧
          b.pos ≤ (if b.size = 0 then 0 else b.size - 1)
      · exact absurd ⟨hm, hlen, hv.1, hv.2.1, hv.2.2.1, hv.2.2.2⟩ h
      · simp only [loadInsultsStateFromNvs]
        rw [if_neg (by simp [hm]), if_neg (by simp [hlen]), if_neg (by omega), if_neg hv]
        exact ⟨rfl, rfl, rfl, rfl⟩
    · simp only [loadInsultsStateFromNvs]
      rw [if_neg (by simp [hm]), if_pos (by simpa using hlen)]
      exact ⟨rfl, rfl, rfl, rfl⟩
  · simp only [loadInsultsStateFromNvs]
    rw [if_pos (by simpa using hm)]
    exact ⟨rfl, rfl, rfl, rfl⟩

/-- The wake-path fallback: when the NVS restore fails, insultsInit draws a
fresh item and seeds a single-entry history. -/
theorem insultsInit_wake_fallback (rng : Nat → Nat) (n : Nat) (p : Bool)
    (b? : Option Blob) (s : EngineState) (hn : 0 < n)
    (hfail : (loadInsultsStateFromNvs n b? (initDeck rng n s)).1 = false) :
    (insultsInit rng n p true b? s).1 = true ∧
    (insultsInit rng n p true b? s).2.historySize = 1 := by
  unfold insultsInit
  dsimp only
  rw [if_neg (by simp)]
  split
  next s1 heq =>
    rw [heq] at hfail
    simp at hfail
  next s1 heq =>
    rw [if_neg (by omega)]
    refine ⟨rfl, ?_⟩
    dsimp only
    rw [appendToHistory_size _ _ _ hn]
    dsimp only
    rw [if_pos (by omega)]

/-- C3 counterexample: restoring this corrupted blob (cursor 5 with size 1)
fails, yet the engine state is not left untouched — the raw history buffer
has already been overwritten with the blob's bytes, so the claim that a
failed restore applies no partial state is false as stated. -/
theorem C3_restore_partial_state_counterexample :
    (loadInsultsStateFromNvs 4 (Option.some c3BadBlob) (zeroState 4)).1 = false ∧
    (loadInsultsStateFromNvs 4 (Option.some c3BadBlob) (zeroState 4)).2 ≠ zeroState 4 := by
  decide

/-- C3 (amended): restore succeeds iff the magic marker and stored byte
length match and the saved CurrentIndex, size, head and cursor pass the
range checks; on success the saved head, size, cursor and CurrentIndex are
all applied; on any violation restore returns false without applying the
saved head, size, cursor or CurrentIndex (the raw history buffer, however,
may already have been overwritten with the blob's bytes before the metadata
validation runs); and the wake-path caller then seeds fresh state by drawing
one item and resetting history to a single-entry log (size == 1). -/
theorem C3_restore_validation (n : Nat) (s : EngineState) (rng : Nat → Nat) (p : Bool)
    (b bGood bBad : Blob) (hn : 0 < n)
    (hgood : blobChecksPass n bGood) (hbad : ¬ blobChecksPass n bBad) :
    ((loadInsultsStateFromNvs n (Option.some b) s).1 = true ↔ blobChecksPass n b) ∧
    loadInsultsStateFromNvs n (Option.some bGood) s
      = (true, { s with
          history := bGood.hist
          historyHead := bGood.head
          historySize := bGood.size
          historyPosition := bGood.pos
          currentInsultIndex := bGood.cur }) ∧
    ((loadInsultsStateFromNvs n (Option.some bBad) s).1 = false ∧
     (loadInsultsStateFromNvs n (Option.some bBad) s).2.historyHead = s.historyHead ∧
     (loadInsultsStateFromNvs n (Option.some bBad) s).2.historySize = s.historySize ∧
     (loadInsultsStateFromNvs n (Option.some bBad) s).2.historyPosition
       = s.historyPosition ∧
     (loadInsultsStateFromNvs n (Option.some bBad) s).2.currentInsultIndex
       = s.currentInsultIndex) ∧
    ((insultsInit rng n p true (Option.some bBad) s).1 = true ∧
     (insultsInit rng n p true (Option.some bBad) s).2.historySize = 1) := by
  exact ⟨load_fst_iff n s b hn, load_success_state n s bGood hn hgood,
    load_failure_state n s bBad hn hbad,
    insultsInit_wake_fallback rng n p (Option.some bBad) s hn
      (load_failure_state n (initDeck rng n s) bBad hn hbad).1⟩

/-- C3 witness: concrete blobs exercising the amended restore contract. -/
theorem C3_restore_validation_witness :
    ((loadInsultsStateFromNvs 4 (Option.some c3BadBlob) (zeroState 4)).1 = true
       ↔ blobChecksPass 4 c3BadBlob) ∧
    loadInsultsStateFromNvs 4
        (Option.some { magic := NVS_MAGIC, cur := 2, head := 3, size := 2, pos := 1,
                       hist := [7, 8, 9, 10] }) (zeroState 4)
      = (true, { zeroState 4 with
          history := [7, 8, 9, 10]
          historyHead := 3
          historySize := 2
          historyPosition := 1
          currentInsultIndex := 2 }) ∧
    ((loadInsultsStateFromNvs 4 (Option.some c3BadBlob) (zeroState 4)).1 = false ∧
     (loadInsultsStateFromNvs 4 (Option.some c3BadBlob) (zeroState 4)).2.historyHead
       = (zeroState 4).historyHead ∧
     (loadInsultsStateFromNvs 4 (Option.some c3BadBlob) (zeroState 4)).2.historySize
       = (zeroState 4).historySize ∧
     (loadInsultsStateFromNvs 4 (Option.some c3BadBlob) (zeroState 4)).2.historyPosition
       = (zeroState 4).historyPosition ∧
     (loadInsultsStateFromNvs 4 (Option.some c3BadBlob) (zeroState 4)).2.currentInsultIndex
       = (zeroState 4).currentInsultIndex) ∧
    ((insultsInit (fun _ => 0) 4 false true (Option.some c3BadBlob) (zeroState 4)).1
       = true ∧
     (insultsInit (fun _ => 0) 4 false true
         (Option.some c3BadBlob) (zeroState 4)).2.historySize = 1) := by
  have h := C3_restore_validation 4 (zeroState 4) (fun _ => 0) false
    c3BadBlob
    { magic := NVS_MAGIC, cur := 2, head := 3, size := 2, pos := 1, hist := [7, 8, 9, 10] }
    c3BadBlob (by decide) (by unfold blobChecksPass; decide)
    (by unfold blobChecksPass; decide)
  exact h

theorem historyGetAtLogical_ne_none (n : Nat) (s : EngineState) (lp : Nat)
    (hn : 0 < n) (hlp : lp < s.historySize) :
    historyGetAtLogical n s lp ≠ Option.none := by
  unfold historyGetAtLogical
  rw [if_neg (by omega), if_neg (by omega)]
  simp

theorem insultsPoll_idle (n now : Nat) (s : EngineState)
    (h : s.operationPhase = OperationPhase.idle) :
    insultsPoll n now s = (false, s) := by
  unfold insultsPoll
  rw [if_pos (by simp [h])]

/-- A rejected Prev start: both rejection branches return false, reset the
operation state to Idle, and leave history, cursor, current index and deck
untouched. -/
theorem beginPrev_rejected (rng : Nat → Nat) (n now : Nat) (s : EngineState)
    (hrej : s.historySize = 0 ∨ s.historyPosition = 0) :
    (insultsStartOperation rng n PendingAction.prev now s).1 = false ∧
    (insultsStartOperation rng n PendingAction.prev now s).2.operationPhase
      = OperationPhase.idle ∧
    (insultsStartOperation rng n PendingAction.prev now s).2.pendingAction
      = PendingAction.none ∧
    (insultsStartOperation rng n PendingAction.prev now s).2.history = s.history ∧
    (insultsStartOperation rng n PendingAction.prev now s).2.historyHead
      = s.historyHead ∧
    (insultsStartOperation rng n PendingAction.prev now s).2.historySize
      = s.historySize ∧
    (insultsStartOperation rng n PendingAction.prev now s).2.historyPosition
      = s.historyPosition ∧
    (insultsStartOperation rng n PendingAction.prev now s).2.currentInsultIndex
      = s.currentInsultIndex ∧
    (insultsStartOperation rng n PendingAction.prev now s).2.deck = s.deck ∧
    (insultsStartOperation rng n PendingAction.prev now s).2.deckPosition
      = s.deckPosition := by
  have key : insultsStartOperation rng n PendingAction.prev now s
      = (false, { s with
          pendingAction := PendingAction.none
          operationPhase := OperationPhase.idle
          operationIsNewInsult := false
          operationStartedAt := now }) := by
    unfold insultsStartOperation beginWorkFor
    dsimp only
    by_cases h0 : s.historySize = 0
    · rw [if_pos h0]
      rfl
    · have hp0 : s.historyPosition = 0 := by tauto
      rw [if_neg h0, if_pos hp0]
      rfl
  rw [key]
  exact ⟨rfl, rfl, rfl, rfl, rfl, rfl, rfl, rfl, rfl, rfl⟩

/-- insultsStartOperation on an accepted beginWorkFor result. -/
theorem insultsStartOperation_true (rng : Nat → Nat) (n : Nat) (a : PendingAction)
    (now : Nat) (s t : EngineState)
    (h : beginWorkFor rng n a { s with
        pendingAction := a
        operationPhase := OperationPhase.idle
        operationIsNewInsult := false
        operationStartedAt := now } = (true, t)) :
    insultsStartOperation rng n a now s = (true, t) := by
  unfold insultsStartOperation
  dsimp only
  rw [h]
  rfl

/-- insultsStartOperation on a rejected beginWorkFor result: the operation
state is reset to Idle. -/
theorem insultsStartOperation_false (rng : Nat → Nat) (n : Nat) (a : PendingAction)
    (now : Nat) (s t : EngineState)
    (h : beginWorkFor rng n a { s with
        pendingAction := a
        operationPhase := OperationPhase.idle
        operationIsNewInsult := false
        operationStartedAt := now } = (false, t)) :
    insultsStartOperation rng n a now s
      = (false, { t with
          pendingAction := PendingAction.none
          operationPhase := OperationPhase.idle
          operationIsNewInsult := false }) := by
  unfold insultsStartOperation
  dsimp only
  rw [h]
  rfl

/-- beginWorkFor on Prev with a strictly positive cursor inside the history:
accepted, cursor decremented, entry read. -/
theorem beginWorkFor_prev_accepted (rng : Nat → Nat) (n : Nat) (t : EngineState)
    (hn : 0 < n) (hpos : 0 < t.historyPosition)
    (hlt : t.historyPosition < t.historySize) :
    ∃ v, historyGetAtLogical n t (t.historyPosition - 1) = Option.some v ∧
      beginWorkFor rng n PendingAction.prev t
        = (true, { t with
            operationIsNewInsult := false
            historyPosition := t.historyPosition - 1
            pendingInsultIndex := v
            operationPhase := OperationPhase.waiting }) := by
  unfold beginWorkFor
  dsimp only
  rw [if_neg (by omega), if_neg (by omega)]
  have hget : historyGetAtLogical n { t with
      operationIsNewInsult := false
      historyPosition := t.historyPosition - 1 } (t.historyPosition - 1)
    = historyGetAtLogical n t (t.historyPosition - 1) := by
    unfold historyGetAtLogical historyOldestPhysicalIndex
    rfl
  rw [hget]
  rcases hv : historyGetAtLogical n t (t.historyPosition - 1) with _ | v
  · exact absurd hv (historyGetAtLogical_ne_none n t _ hn (by omega))
  · exact ⟨v, rfl, rfl⟩

/-- An accepted Prev start: decrements the cursor, reads the entry there,
and enters the Waiting phase without touching the stored history. -/
theorem beginPrev_accepted (rng : Nat → Nat) (n now : Nat) (s : EngineState)
    (hn : 0 < n) (hpos : 0 < s.historyPosition)
    (hlt : s.historyPosition < s.historySize) :
    (insultsStartOperation rng n PendingAction.prev now s).1 = true ∧
    (insultsStartOperation rng n PendingAction.prev now s).2.operationPhase
      = OperationPhase.waiting ∧
    (insultsStartOperation rng n PendingAction.prev now s).2.pendingAction
      = PendingAction.prev ∧
    (insultsStartOperation rng n PendingAction.prev now s).2.operationIsNewInsult
      = false ∧
    (insultsStartOperation rng n PendingAction.prev now s).2.history = s.history ∧
    (insultsStartOperation rng n PendingAction.prev now s).2.historyHead
      = s.historyHead ∧
    (insultsStartOperation rng n PendingAction.prev now s).2.historySize
      = s.historySize ∧
    (insultsStartOperation rng n PendingAction.prev now s).2.historyPosition
      = s.historyPosition - 1 ∧
    (insultsStartOperation rng n PendingAction.prev now s).2.currentInsultIndex
      = s.currentInsultIndex ∧
    (insultsStartOperation rng n PendingAction.prev now s).2.deck = s.deck ∧
    (insultsStartOperation rng n PendingAction.prev now s).2.deckPosition
      = s.deckPosition ∧
    (insultsStartOperation rng n PendingAction.prev now s).2.operationStartedAt
      = now := by
  obtain ⟨v, -, hbw⟩ := beginWorkFor_prev_accepted rng n
    { s with
      pendingAction := PendingAction.prev
      operationPhase := OperationPhase.idle
      operationIsNewInsult := false
      operationStartedAt := now } hn hpos hlt
  have key := insultsStartOperation_true rng n PendingAction.prev now s _ hbw
  rw [key]
  exact ⟨rfl, rfl, rfl, rfl, rfl, rfl, rfl, rfl, rfl, rfl, rfl, rfl⟩

theorem beginPrevIter_state (rng : Nat → Nat) (n now k : Nat) (s : EngineState)
    (hn : 0 < n) (hk : k ≤ s.historyPosition)
    (hlt : s.historyPosition < s.historySize) :
    (beginPrevIter rng n now k s).historyPosition = s.historyPosition - k ∧
    (beginPrevIter rng n now k s).historySize = s.historySize ∧
    (beginPrevIter rng n now k s).history = s.history ∧
    (beginPrevIter rng n now k s).historyHead = s.historyHead := by
  induction k generalizing s with
  | zero => exact ⟨rfl, rfl, rfl, rfl⟩
  | succ k ih =>
    obtain ⟨-, -, -, -, hhist, hhead, hsize, hpos, -, -, -, -⟩ :=
      beginPrev_accepted rng n now s hn (by omega) hlt
    have hrec := ih (insultsStartOperation rng n PendingAction.prev now s).2
      (by rw [hpos]; omega) (by rw [hpos, hsize]; omega)
    have hunf : beginPrevIter rng n now (k + 1) s
        = beginPrevIter rng n now k (insultsStartOperation rng n PendingAction.prev now s).2 :=
      rfl
    rw [hunf]
    refine ⟨?_, ?_, ?_, ?_⟩
    · rw [hrec.1, hpos]
      omega
    · rw [hrec.2.1, hsize]
    · rw [hrec.2.2.1, hhist]
    · rw [hrec.2.2.2, hhead]

/-- C5: begin(StepBackward) is rejected (returns false) iff the history is
empty or the cursor is already 0; on rejection the operation state returns
to Idle with history, cursor, CurrentIndex and deck unchanged, so a
following poll returns false; and from a history of size S with the cursor
at the newest entry, repeated StepBackward calls never decrement the cursor
below 0 (after k accepted calls it sits at S - 1 - k) and the S-th
consecutive call is rejected. -/
theorem C5_step_backward_rejection (rng : Nat → Nat) (n now now2 k kA : Nat)
    (s sR : EngineState) (hn : 0 < n)
    (hinv : 0 < s.historySize → s.historyPosition < s.historySize)
    (hrej : sR.historySize = 0 ∨ sR.historyPosition = 0)
    (hnewest : s.historyPosition = s.historySize - 1) (hS : 0 < s.historySize)
    (hk : k ≤ s.historySize - 1) (hkA : kA < s.historySize - 1) :
    ((insultsStartOperation rng n PendingAction.prev now s).1 = false
       ↔ (s.historySize = 0 ∨ s.historyPosition = 0)) ∧
    ((insultsStartOperation rng n PendingAction.prev now sR).1 = false ∧
     (insultsStartOperation rng n PendingAction.prev now sR).2.operationPhase
       = OperationPhase.idle ∧
     (insultsStartOperation rng n PendingAction.prev now sR).2.history = sR.history ∧
     (insultsStartOperation rng n PendingAction.prev now sR).2.historySize
       = sR.historySize ∧
     (insultsStartOperation rng n PendingAction.prev now sR).2.historyPosition
       = sR.historyPosition ∧
     (insultsStartOperation rng n PendingAction.prev now sR).2.currentInsultIndex
       = sR.currentInsultIndex ∧
     (insultsStartOperation rng n PendingAction.prev now sR).2.deck = sR.deck ∧
     insultsPoll n now2 (insultsStartOperation rng n PendingAction.prev now sR).2
       = (false, (insultsStartOperation rng n PendingAction.prev now sR).2)) ∧
    (beginPrevIter rng n now k s).historyPosition = s.historySize - 1 - k ∧
    (insultsStartOperation rng n PendingAction.prev now
        (beginPrevIter rng n now kA s)).1 = true ∧
    (insultsStartOperation rng n PendingAction.prev now
        (beginPrevIter rng n now (s.historySize - 1) s)).1 = false := by
  have hlt : s.historyPosition < s.historySize := hinv hS
  refine ⟨?_, ?_, ?_, ?_, ?_⟩
  · constructor
    · intro hfalse
      by_contra hc
      push_neg at hc
      have := (beginPrev_accepted rng n now s hn (by omega) hlt).1
      rw [this] at hfalse
      exact absurd hfalse (by simp)
    · intro hc
      exact (beginPrev_rejected rng n now s hc).1
  · obtain ⟨h1, h2, h3, h4, h5, h6, h7, h8, h9, h10⟩ :=
      beginPrev_rejected rng n now sR hrej
    exact ⟨h1, h2, h4, h6, h7, h8, h9, insultsPoll_idle n now2 _ h2⟩
  · have h1 := (beginPrevIter_state rng n now k s hn (by omega) hlt).1
    rw [h1, hnewest]
  · obtain ⟨hpos, hsize, -, -⟩ := beginPrevIter_state rng n now kA s hn (by omega) hlt
    exact (beginPrev_accepted rng n now _ hn (by omega) (by omega)).1
  · obtain ⟨hpos, hsize, -, -⟩ :=
      beginPrevIter_state rng n now (s.historySize - 1) s hn (by omega) hlt
    exact (beginPrev_rejected rng n now _ (Or.inr (by omega))).1

/-- C5 witness: a concrete size-2 history with the cursor at the newest
entry; the first backward step is accepted and the second rejected. -/
theorem C5_step_backward_rejection_witness :
    ((insultsStartOperation (fun _ => 0) 4 PendingAction.prev 10 c5State).1 = false
       ↔ (c5State.historySize = 0 ∨ c5State.historyPosition = 0)) ∧
    ((insultsStartOperation (fun _ => 0) 4 PendingAction.prev 10 c5Rejected).1 = false ∧
     (insultsStartOperation (fun _ => 0) 4 PendingAction.prev 10 c5Rejected).2.operationPhase
       = OperationPhase.idle ∧
     (insultsStartOperation (fun _ => 0) 4 PendingAction.prev 10 c5Rejected).2.history
       = c5Rejected.history ∧
     (insultsStartOperation (fun _ => 0) 4 PendingAction.prev 10 c5Rejected).2.historySize
       = c5Rejected.historySize ∧
     (insultsStartOperation (fun _ => 0) 4 PendingAction.prev 10 c5Rejected).2.historyPosition
       = c5Rejected.historyPosition ∧
     (insultsStartOperation (fun _ => 0) 4 PendingAction.prev 10 c5Rejected).2.currentInsultIndex
       = c5Rejected.currentInsultIndex ∧
     (insultsStartOperation (fun _ => 0) 4 PendingAction.prev 10 c5Rejected).2.deck
       = c5Rejected.deck ∧
     insultsPoll 4 2000 (insultsStartOperation (fun _ => 0) 4 PendingAction.prev 10 c5Rejected).2
       = (false, (insultsStartOperation (fun _ => 0) 4 PendingAction.prev 10 c5Rejected).2)) ∧
    (beginPrevIter (fun _ => 0) 4 10 1 c5State).historyPosition
      = c5State.historySize - 1 - 1 ∧
    (insultsStartOperation (fun _ => 0) 4 PendingAction.prev 10
        (beginPrevIter (fun _ => 0) 4 10 0 c5State)).1 = true ∧
    (insultsStartOperation (fun _ => 0) 4 PendingAction.prev 10
        (beginPrevIter (fun _ => 0) 4 10 (c5State.historySize - 1) c5State)).1 = false :=
  C5_step_backward_rejection (fun _ => 0) 4 10 2000 1 0 c5State c5Rejected
    (by decide) (by decide) (by decide) (by decide) (by decide) (by decide) (by decide)

theorem beginWorkFor_random (rng : Nat → Nat) (n : Nat) (t : EngineState)
    (idx : Nat) (s1 : EngineState)
    (hd : drawFromDeck rng n { t with operationIsNewInsult := false } = (idx, s1)) :
    beginWorkFor rng n PendingAction.random t
      = (true, { s1 with
          pendingInsultIndex := idx
          operationIsNewInsult := true
          operationPhase := OperationPhase.waiting }) := by
  unfold beginWorkFor
  dsimp only
  rw [hd]

theorem beginWorkFor_next_empty (rng : Nat → Nat) (n : Nat) (t : EngineState)
    (idx : Nat) (s1 : EngineState) (hsz : t.historySize = 0)
    (hd : drawFromDeck rng n { t with operationIsNewInsult := false } = (idx, s1)) :
    beginWorkFor rng n PendingAction.next t
      = (true, { s1 with
          pendingInsultIndex := idx
          operationIsNewInsult := true
          operationPhase := OperationPhase.waiting }) := by
  unfold beginWorkFor
  dsimp only
  rw [if_pos hsz, hd]

theorem beginWorkFor_next_atEnd (rng : Nat → Nat) (n : Nat) (t : EngineState)
    (idx : Nat) (s1 : EngineState) (hsz : ¬ t.historySize = 0)
    (hpos : ¬ t.historyPosition < t.historySize - 1)
    (hd : drawFromDeck rng n { t with operationIsNewInsult := false } = (idx, s1)) :
    beginWorkFor rng n PendingAction.next t
      = (true, { s1 with
          pendingInsultIndex := idx
          operationIsNewInsult := true
          operationPhase := OperationPhase.waiting }) := by
  unfold beginWorkFor
  dsimp only
  rw [if_neg hsz, if_neg hpos, hd]

theorem beginWorkFor_next_forward (rng : Nat → Nat) (n : Nat) (t : EngineState)
    (hn : 0 < n) (hsz : ¬ t.historySize = 0)
    (hpos : t.historyPosition < t.historySize - 1) :
    ∃ v, historyGetAtLogical n t (t.historyPosition + 1) = Option.some v ∧
      beginWorkFor rng n PendingAction.next t
        = (true, { t with
            operationIsNewInsult := false
            historyPosition := t.historyPosition + 1
            pendingInsultIndex := v
            operationPhase := OperationPhase.waiting }) := by
  unfold beginWorkFor
  dsimp only
  rw [if_neg hsz, if_pos hpos]
  have hget : historyGetAtLogical n { t with
      operationIsNewInsult := false
      historyPosition := t.historyPosition + 1 } (t.historyPosition + 1)
    = historyGetAtLogical n t (t.historyPosition + 1) := by
    unfold historyGetAtLogical historyOldestPhysicalIndex
    rfl
  rw [hget]
  rcases hv : historyGetAtLogical n t (t.historyPosition + 1) with _ | v
  · exact absurd hv (historyGetAtLogical_ne_none n t _ hn (by omega))
  · exact ⟨v, rfl, rfl⟩

/-- drawFromDeck never reads the pendingAction field: drawing from a state
that differs only there gives the same index and a state differing only
there. -/
theorem drawFromDeck_pendingAction (rng : Nat → Nat) (n : Nat) (u : EngineState)
    (a : PendingAction) :
    drawFromDeck rng n { u with pendingAction := a }
      = ((drawFromDeck rng n u).1, { (drawFromDeck rng n u).2 with pendingAction := a }) := by
  unfold drawFromDeck initDeck
  by_cases h : n = 0
  · rw [if_pos h, if_pos h]
  · rw [if_neg h, if_neg h]
    dsimp only
    by_cases h2 : n ≤ u.deckPosition
    · rw [if_pos h2, if_pos h2]
    · rw [if_neg h2, if_neg h2]

theorem insultsPoll_completes (n now : Nat) (s : EngineState)
    (h1 : s.operationPhase = OperationPhase.waiting)
    (h2 : MOCK_WORK_MS ≤ sub32 now s.operationStartedAt) :
    insultsPoll n now s = (true, completeOperation n s) := by
  unfold insultsPoll
  rw [if_neg (by simp [h1]), if_neg (by omega)]

theorem historyAbs_congr (n : Nat) (a b : EngineState) (h1 : a.history = b.history)
    (h2 : a.historyHead = b.historyHead) (h3 : a.historySize = b.historySize) :
    historyAbs n a = historyAbs n b := by
  unfold historyAbs historyOldestPhysicalIndex
  rw [h1, h2, h3]

theorem finishOp_historySize (t : EngineState) : (finishOp t).historySize = t.historySize := rfl

theorem finishOp_cur (t : EngineState) :
    (finishOp t).currentInsultIndex = t.currentInsultIndex := rfl

theorem historyAbs_finishOp (n : Nat) (t : EngineState) :
    historyAbs n (finishOp t) = historyAbs n t :=
  historyAbs_congr n _ _ rfl rfl rfl

theorem completeOperation_random (n : Nat) (s : EngineState)
    (h : s.pendingAction = PendingAction.random) :
    completeOperation n s
      = finishOp (appendToHistory n { s with currentInsultIndex := s.pendingInsultIndex }
          s.pendingInsultIndex) := by
  unfold completeOperation finishOp
  dsimp only
  rw [if_pos h]

theorem completeOperation_next_new (n : Nat) (s : EngineState)
    (h1 : s.pendingAction = PendingAction.next) (h2 : s.operationIsNewInsult = true) :
    completeOperation n s
      = finishOp (appendToHistory n { s with currentInsultIndex := s.pendingInsultIndex }
          s.pendingInsultIndex) := by
  unfold completeOperation finishOp
  dsimp only
  rw [if_neg (by simp [h1]), if_pos ⟨h1, by simp [h2]⟩]

theorem completeOperation_no_append (n : Nat) (s : EngineState)
    (h1 : ¬ s.pendingAction = PendingAction.random)
    (h2 : ¬ (s.pendingAction = PendingAction.next ∧ s.operationIsNewInsult = true)) :
    completeOperation n s
      = finishOp { s with currentInsultIndex := s.pendingInsultIndex } := by
  unfold completeOperation finishOp
  dsimp only
  rw [if_neg h1, if_neg (by simpa using h2)]

theorem appendToHistory_cur (n : Nat) (s : EngineState) (x : Nat) :
    (appendToHistory n s x).currentInsultIndex = s.currentInsultIndex := by
  unfold appendToHistory
  split <;> rfl

/-- drawFromDeck never touches the history fields, the pending action or the
operation timestamp. -/
theorem drawFromDeck_fields (rng : Nat → Nat) (n : Nat) (u : EngineState) :
    (drawFromDeck rng n u).2.history = u.history ∧
    (drawFromDeck rng n u).2.historyHead = u.historyHead ∧
    (drawFromDeck rng n u).2.historySize = u.historySize ∧
    (drawFromDeck rng n u).2.pendingAction = u.pendingAction ∧
    (drawFromDeck rng n u).2.operationStartedAt = u.operationStartedAt := by
  unfold drawFromDeck initDeck
  by_cases h : n = 0
  · rw [if_pos h]
    exact ⟨rfl, rfl, rfl, rfl, rfl⟩
  · rw [if_neg h]
    dsimp only
    by_cases h2 : n ≤ u.deckPosition
    · rw [if_pos h2]
      rcases hfy : fyLoop rng (List.range n) u.rngTape (n - 1) with ⟨d, tp⟩
      exact ⟨rfl, rfl, rfl, rfl, rfl⟩
    · rw [if_neg h2]
      exact ⟨rfl, rfl, rfl, rfl, rfl⟩

/-- An elapsed poll on a Waiting state whose completed intent appends
(Random, or Next with new content): reports completion once, applies the
pending index, appends it to the history, and resets the phase. -/
theorem poll_completes_append_abs (n now : Nat) (u : EngineState) (hn : 0 < n)
    (hWF : HistWF n u) (hphase : u.operationPhase = OperationPhase.waiting)
    (htime : MOCK_WORK_MS ≤ sub32 now u.operationStartedAt)
    (happend : u.pendingAction = PendingAction.random ∨
       (u.pendingAction = PendingAction.next ∧ u.operationIsNewInsult = true)) :
    (insultsPoll n now u).1 = true ∧
    (insultsPoll n now u).2.historySize
      = (if u.historySize < n then u.historySize + 1 else u.historySize) ∧
    historyAbs n (insultsPoll n now u).2
      = ((historyAbs n u) ++ [u.pendingInsultIndex]).drop (u.historySize + 1 - n) ∧
    (insultsPoll n now u).2.currentInsultIndex = u.pendingInsultIndex ∧
    (insultsPoll n now u).2.operationPhase = OperationPhase.idle ∧
    (insultsPoll n now u).2.pendingAction = PendingAction.none := by
  have hcompl := insultsPoll_completes n now u hphase htime
  rw [hcompl]
  have hcomp : completeOperation n u
      = finishOp (appendToHistory n { u with currentInsultIndex := u.pendingInsultIndex }
          u.pendingInsultIndex) := by
    rcases happend with h | ⟨h1, h2⟩
    · exact completeOperation_random n u h
    · exact completeOperation_next_new n u h1 h2
  rw [hcomp]
  refine ⟨rfl, ?_, ?_, ?_, rfl, rfl⟩
  · rw [finishOp_historySize, appendToHistory_size _ _ _ hn]
  · rw [historyAbs_finishOp,
      historyAbs_append2 n { u with currentInsultIndex := u.pendingInsultIndex }
        u.pendingInsultIndex ⟨hWF.1, hWF.2.1, hWF.2.2⟩]
    rw [historyAbs_congr n { u with currentInsultIndex := u.pendingInsultIndex } u
      rfl rfl rfl]
  · rw [finishOp_cur, appendToHistory_cur]

/-- C4: begin(StepForward) from an empty history behaves exactly like
begin(NewRandom) — identical result except for the recorded action, drawing
a fresh item with isNewContent = true; with non-empty history and the cursor
strictly before the newest entry it increments the cursor and selects the
existing entry there with isNewContent = false and no draw; with the cursor
at the newest entry it draws a fresh item with isNewContent = true, and
after the corresponding poll completes the size increases by one unless
already at capacity, where the new item replaces the oldest entry. -/
theorem C4_step_forward (rng : Nat → Nat) (n now now2 : Nat)
    (sE s sN : EngineState) (hn : 0 < n)
    (hE : sE.historySize = 0)
    (hs1 : 0 < s.historySize) (hs2 : s.historyPosition < s.historySize - 1)
    (hN1 : 0 < sN.historySize) (hN2 : sN.historyPosition = sN.historySize - 1)
    (hWFN : HistWF n sN) (hge : MOCK_WORK_MS ≤ sub32 now2 now) :
    (insultsStartOperation rng n PendingAction.next now sE
       = ((insultsStartOperation rng n PendingAction.random now sE).1,
          { (insultsStartOperation rng n PendingAction.random now sE).2 with
            pendingAction := PendingAction.next }) ∧
     (insultsStartOperation rng n PendingAction.next now sE).1 = true ∧
     (insultsStartOperation rng n PendingAction.next now sE).2.operationIsNewInsult
       = true) ∧
    ((insultsStartOperation rng n PendingAction.next now s).1 = true ∧
     (insultsStartOperation rng n PendingAction.next now s).2.historyPosition
       = s.historyPosition + 1 ∧
     (insultsStartOperation rng n PendingAction.next now s).2.operationIsNewInsult
       = false ∧
     historyGetAtLogical n s (s.historyPosition + 1)
       = Option.some
           (insultsStartOperation rng n PendingAction.next now s).2.pendingInsultIndex ∧
     (insultsStartOperation rng n PendingAction.next now s).2.deck = s.deck ∧
     (insultsStartOperation rng n PendingAction.next now s).2.deckPosition
       = s.deckPosition ∧
     (insultsStartOperation rng n PendingAction.next now s).2.historySize
       = s.historySize) ∧
    ((insultsStartOperation rng n PendingAction.next now sN).1 = true ∧
     (insultsStartOperation rng n PendingAction.next now sN).2.operationIsNewInsult
       = true ∧
     (insultsPoll n now2 (insultsStartOperation rng n PendingAction.next now sN).2).1
       = true ∧
     (insultsPoll n now2 (insultsStartOperation rng n PendingAction.next now sN).2).2.historySize
       = (if sN.historySize < n then sN.historySize + 1 else sN.historySize) ∧
     historyAbs n
         (insultsPoll n now2 (insultsStartOperation rng n PendingAction.next now sN).2).2
       = ((historyAbs n sN)
           ++ [(insultsStartOperation rng n PendingAction.next now sN).2.pendingInsultIndex]).drop
           (sN.historySize + 1 - n)) := by
  refine ⟨?_, ?_, ?_⟩
  · -- empty history: Next is Random with a different recorded action
    rcases hdR : drawFromDeck rng n
        { sE with
          pendingAction := PendingAction.random
          operationPhase := OperationPhase.idle
          operationIsNewInsult := false
          operationStartedAt := now } with ⟨idx, u2⟩
    have hR := beginWorkFor_random rng n
      { sE with
        pendingAction := PendingAction.random
        operationPhase := OperationPhase.idle
        operationIsNewInsult := false
        operationStartedAt := now } idx u2 hdR
    have keyR := insultsStartOperation_true rng n PendingAction.random now sE _ hR
    have hdN : drawFromDeck rng n
        { sE with
          pendingAction := PendingAction.next
          operationPhase := OperationPhase.idle
          operationIsNewInsult := false
          operationStartedAt := now }
        = (idx, { u2 with pendingAction := PendingAction.next }) := by
      have hcomm := drawFromDeck_pendingAction rng n
        { sE with
          pendingAction := PendingAction.random
          operationPhase := OperationPhase.idle
          operationIsNewInsult := false
          operationStartedAt := now } PendingAction.next
      rw [hdR] at hcomm
      exact hcomm
    have hN := beginWorkFor_next_empty rng n
      { sE with
        pendingAction := PendingAction.next
        operationPhase := OperationPhase.idle
        operationIsNewInsult := false
        operationStartedAt := now } idx { u2 with pendingAction := PendingAction.next }
      hE hdN
    have keyN := insultsStartOperation_true rng n PendingAction.next now sE _ hN
    rw [keyN, keyR]
    exact ⟨rfl, rfl, rfl⟩
  · -- pure forward navigation inside the history
    obtain ⟨v, hvget, hbw⟩ := beginWorkFor_next_forward rng n
      { s with
        pendingAction := PendingAction.next
        operationPhase := OperationPhase.idle
        operationIsNewInsult := false
        operationStartedAt := now } hn
      (show ¬ s.historySize = 0 by omega)
      (show s.historyPosition < s.historySize - 1 from hs2)
    have key := insultsStartOperation_true rng n PendingAction.next now s _ hbw
    rw [key]
    exact ⟨rfl, rfl, rfl, hvget, rfl, rfl, rfl⟩
  · -- cursor at the newest entry: fresh draw, then the poll appends
    rcases hdN : drawFromDeck rng n
        { sN with
          pendingAction := PendingAction.next
          operationPhase := OperationPhase.idle
          operationIsNewInsult := false
          operationStartedAt := now } with ⟨idx, u2⟩
    have hbw := beginWorkFor_next_atEnd rng n
      { sN with
        pendingAction := PendingAction.next
        operationPhase := OperationPhase.idle
        operationIsNewInsult := false
        operationStartedAt := now } idx u2
      (show ¬ sN.historySize = 0 by omega)
      (show ¬ sN.historyPosition < sN.historySize - 1 by omega) hdN
    have key := insultsStartOperation_true rng n PendingAction.next now sN _ hbw
    have hdf := drawFromDeck_fields rng n
      { sN with
        pendingAction := PendingAction.next
        operationPhase := OperationPhase.idle
        operationIsNewInsult := false
        operationStartedAt := now }
    rw [hdN] at hdf
    dsimp only at hdf
    obtain ⟨hh, hhd, hhs, hpa, hsa⟩ := hdf
    rw [key]
    have habs : historyAbs n
        ({ u2 with
           pendingInsultIndex := idx
           operationIsNewInsult := true
           operationPhase := OperationPhase.waiting } : EngineState)
        = historyAbs n sN :=
      historyAbs_congr n _ sN hh hhd hhs
    have hWFu : HistWF n ({ u2 with
        pendingInsultIndex := idx
        operationIsNewInsult := true
        operationPhase := OperationPhase.waiting } : EngineState) := by
      refine ⟨?_, ?_, ?_⟩
      · dsimp only
        rw [hh]
        exact hWFN.1
      · dsimp only
        rw [hhd]
        exact hWFN.2.1
      · dsimp only
        rw [hhs]
        exact hWFN.2.2
    obtain ⟨p1, p2, p3, p4, p5, p6⟩ := poll_completes_append_abs n now2
      { u2 with
        pendingInsultIndex := idx
        operationIsNewInsult := true
        operationPhase := OperationPhase.waiting } hn hWFu rfl
      (by dsimp only; rw [hsa]; exact hge)
      (Or.inr ⟨by dsimp only; exact hpa, rfl⟩)
    refine ⟨rfl, rfl, p1, ?_, ?_⟩
    · rw [p2]
      rw [show ({ u2 with
          pendingInsultIndex := idx
          operationIsNewInsult := true
          operationPhase := OperationPhase.waiting } : EngineState).historySize
          = sN.historySize from hhs]
    · rw [p3, habs]
      rw [show ({ u2 with
          pendingInsultIndex := idx
          operationIsNewInsult := true
          operationPhase := OperationPhase.waiting } : EngineState).historySize
          = sN.historySize from hhs]

/-- C4 witness: concrete empty, mid-history and at-newest states. -/
theorem C4_step_forward_witness :
    (insultsStartOperation (fun _ => 0) 4 PendingAction.next 0 (zeroState 4)
       = ((insultsStartOperation (fun _ => 0) 4 PendingAction.random 0 (zeroState 4)).1,
          { (insultsStartOperation (fun _ => 0) 4 PendingAction.random 0 (zeroState 4)).2 with
            pendingAction := PendingAction.next }) ∧
     (insultsStartOperation (fun _ => 0) 4 PendingAction.next 0 (zeroState 4)).1 = true ∧
     (insultsStartOperation (fun _ => 0) 4 PendingAction.next 0
         (zeroState 4)).2.operationIsNewInsult = true) ∧
    ((insultsStartOperation (fun _ => 0) 4 PendingAction.next 0 c4Mid).1 = true ∧
     (insultsStartOperation (fun _ => 0) 4 PendingAction.next 0 c4Mid).2.historyPosition
       = c4Mid.historyPosition + 1 ∧
     (insultsStartOperation (fun _ => 0) 4 PendingAction.next 0 c4Mid).2.operationIsNewInsult
       = false ∧
     historyGetAtLogical 4 c4Mid (c4Mid.historyPosition + 1)
       = Option.some
           (insultsStartOperation (fun _ => 0) 4 PendingAction.next 0
             c4Mid).2.pendingInsultIndex ∧
     (insultsStartOperation (fun _ => 0) 4 PendingAction.next 0 c4Mid).2.deck
       = c4Mid.deck ∧
     (insultsStartOperation (fun _ => 0) 4 PendingAction.next 0 c4Mid).2.deckPosition
       = c4Mid.deckPosition ∧
     (insultsStartOperation (fun _ => 0) 4 PendingAction.next 0 c4Mid).2.historySize
       = c4Mid.historySize) ∧
    ((insultsStartOperation (fun _ => 0) 4 PendingAction.next 0 c5State).1 = true ∧
     (insultsStartOperation (fun _ => 0) 4 PendingAction.next 0
         c5State).2.operationIsNewInsult = true ∧
     (insultsPoll 4 800
         (insultsStartOperation (fun _ => 0) 4 PendingAction.next 0 c5State).2).1 = true ∧
     (insultsPoll 4 800
         (insultsStartOperation (fun _ => 0) 4 PendingAction.next 0
           c5State).2).2.historySize
       = (if c5State.historySize < 4 then c5State.historySize + 1
          else c5State.historySize) ∧
     historyAbs 4
         (insultsPoll 4 800
           (insultsStartOperation (fun _ => 0) 4 PendingAction.next 0 c5State).2).2
       = ((historyAbs 4 c5State)
           ++ [(insultsStartOperation (fun _ => 0) 4 PendingAction.next 0
                 c5State).2.pendingInsultIndex]).drop
           (c5State.historySize + 1 - 4)) :=
  C4_step_forward (fun _ => 0) 4 0 800 (zeroState 4) c4Mid c5State
    (by decide) (by decide) (by decide) (by decide) (by decide) (by decide)
    (by unfold HistWF; decide) (by decide)

theorem beginWorkFor_prev_getSome (rng : Nat → Nat) (n : Nat) (t : EngineState) (v : Nat)
    (hsz : ¬ t.historySize = 0) (hpos : ¬ t.historyPosition = 0)
    (hsome : historyGetAtLogical n t (t.historyPosition - 1) = Option.some v) :
    beginWorkFor rng n PendingAction.prev t
      = (true, { t with
          operationIsNewInsult := false
          historyPosition := t.historyPosition - 1
          pendingInsultIndex := v
          operationPhase := OperationPhase.waiting }) := by
  unfold beginWorkFor
  dsimp only
  rw [if_neg hsz, if_neg hpos]
  have hget : historyGetAtLogical n { t with
      operationIsNewInsult := false
      historyPosition := t.historyPosition - 1 } (t.historyPosition - 1)
    = historyGetAtLogical n t (t.historyPosition - 1) := by
    unfold historyGetAtLogical historyOldestPhysicalIndex
    rfl
  rw [hget, hsome]

theorem beginWorkFor_prev_getNone (rng : Nat → Nat) (n : Nat) (t : EngineState)
    (hsz : ¬ t.historySize = 0) (hpos : ¬ t.historyPosition = 0)
    (hnone : historyGetAtLogical n t (t.historyPosition - 1) = Option.none) :
    beginWorkFor rng n PendingAction.prev t
      = (false, { t with
          operationIsNewInsult := false
          historyPosition := t.historyPosition - 1 }) := by
  unfold beginWorkFor
  dsimp only
  rw [if_neg hsz, if_neg hpos]
  have hget : historyGetAtLogical n { t with
      operationIsNewInsult := false
      historyPosition := t.historyPosition - 1 } (t.historyPosition - 1)
    = historyGetAtLogical n t (t.historyPosition - 1) := by
    unfold historyGetAtLogical historyOldestPhysicalIndex
    rfl
  rw [hget, hnone]

theorem beginWorkFor_next_getSome (rng : Nat → Nat) (n : Nat) (t : EngineState) (v : Nat)
    (hsz : ¬ t.historySize = 0) (hpos : t.historyPosition < t.historySize - 1)
    (hsome : historyGetAtLogical n t (t.historyPosition + 1) = Option.some v) :
    beginWorkFor rng n PendingAction.next t
      = (true, { t with
          operationIsNewInsult := false
          historyPosition := t.historyPosition + 1
          pendingInsultIndex := v
          operationPhase := OperationPhase.waiting }) := by
  unfold beginWorkFor
  dsimp only
  rw [if_neg hsz, if_pos hpos]
  have hget : historyGetAtLogical n { t with
      operationIsNewInsult := false
      historyPosition := t.historyPosition + 1 } (t.historyPosition + 1)
    = historyGetAtLogical n t (t.historyPosition + 1) := by
    unfold historyGetAtLogical historyOldestPhysicalIndex
    rfl
  rw [hget, hsome]

theorem beginWorkFor_next_getNone (rng : Nat → Nat) (n : Nat) (t : EngineState)
    (hsz : ¬ t.historySize = 0) (hpos : t.historyPosition < t.historySize - 1)
    (hnone : historyGetAtLogical n t (t.historyPosition + 1) = Option.none) :
    beginWorkFor rng n PendingAction.next t
      = (false, { t with
          operationIsNewInsult := false
          historyPosition := t.historyPosition + 1 }) := by
  unfold beginWorkFor
  dsimp only
  rw [if_neg hsz, if_pos hpos]
  have hget : historyGetAtLogical n { t with
      operationIsNewInsult := false
      historyPosition := t.historyPosition + 1 } (t.historyPosition + 1)
    = historyGetAtLogical n t (t.historyPosition + 1) := by
    unfold historyGetAtLogical historyOldestPhysicalIndex
    rfl
  rw [hget, hnone]

/-- Any accepted start leaves the operation Waiting with its timestamp and
action recorded, and does not touch the stored history buffer, head or
size. -/
theorem insultsStartOperation_accepted_facts (rng : Nat → Nat) (n : Nat)
    (a : PendingAction) (t0 : Nat) (s s1 : EngineState)
    (h : insultsStartOperation rng n a t0 s = (true, s1)) :
    s1.operationPhase = OperationPhase.waiting ∧
    s1.operationStartedAt = t0 ∧
    s1.pendingAction = a ∧
    s1.history = s.history ∧
    s1.historyHead = s.historyHead ∧
    s1.historySize = s.historySize := by
  cases a with
  | none =>
    have hbw : beginWorkFor rng n PendingAction.none
        { s with
          pendingAction := PendingAction.none
          operationPhase := OperationPhase.idle
          operationIsNewInsult := false
          operationStartedAt := t0 }
        = (false, { s with
            pendingAction := PendingAction.none
            operationPhase := OperationPhase.idle
            operationIsNewInsult := false
            operationStartedAt := t0 }) := rfl
    have key := insultsStartOperation_false rng n PendingAction.none t0 s _ hbw
    rw [key] at h
    exact absurd (congrArg Prod.fst h) (by simp)
  | random =>
    rcases hd : drawFromDeck rng n
        { s with
          pendingAction := PendingAction.random
          operationPhase := OperationPhase.idle
          operationIsNewInsult := false
          operationStartedAt := t0 } with ⟨idx, u2⟩
    have key := insultsStartOperation_true rng n PendingAction.random t0 s _
      (beginWorkFor_random rng n _ idx u2 hd)
    rw [key] at h
    have hdf := drawFromDeck_fields rng n
      { s with
        pendingAction := PendingAction.random
        operationPhase := OperationPhase.idle
        operationIsNewInsult := false
        operationStartedAt := t0 }
    rw [hd] at hdf
    dsimp only at hdf
    injection h with h1 h2
    subst h2
    exact ⟨rfl, hdf.2.2.2.2, hdf.2.2.2.1, hdf.1, hdf.2.1, hdf.2.2.1⟩
  | prev =>
    by_cases h0 : ({ s with
        pendingAction := PendingAction.prev
        operationPhase := OperationPhase.idle
        operationIsNewInsult := false
        operationStartedAt := t0 } : EngineState).historySize = 0
    · have key := insultsStartOperation_false rng n PendingAction.prev t0 s _
        (by
          unfold beginWorkFor
          dsimp only
          rw [if_pos h0])
      rw [key] at h
      exact absurd (congrArg Prod.fst h) (by simp)
    · by_cases hp : ({ s with
          pendingAction := PendingAction.prev
          operationPhase := OperationPhase.idle
          operationIsNewInsult := false
          operationStartedAt := t0 } : EngineState).historyPosition = 0
      · have key := insultsStartOperation_false rng n PendingAction.prev t0 s _
          (by
            unfold beginWorkFor
            dsimp only
            rw [if_neg h0, if_pos hp])
        rw [key] at h
        exact absurd (congrArg Prod.fst h) (by simp)
      · rcases hv : historyGetAtLogical n
            { s with
              pendingAction := PendingAction.prev
              operationPhase := OperationPhase.idle
              operationIsNewInsult := false
              operationStartedAt := t0 }
            (({ s with
                pendingAction := PendingAction.prev
                operationPhase := OperationPhase.idle
                operationIsNewInsult := false
                operationStartedAt := t0 } : EngineState).historyPosition - 1)
            with _ | v
        · have key := insultsStartOperation_false rng n PendingAction.prev t0 s _
            (beginWorkFor_prev_getNone rng n _ h0 hp hv)
          rw [key] at h
          exact absurd (congrArg Prod.fst h) (by simp)
        · have key := insultsStartOperation_true rng n PendingAction.prev t0 s _
            (beginWorkFor_prev_getSome rng n _ v h0 hp hv)
          rw [key] at h
          injection h with h1 h2
          subst h2
          exact ⟨rfl, rfl, rfl, rfl, rfl, rfl⟩
  | next =>
    by_cases h0 : ({ s with
        pendingAction := PendingAction.next
        operationPhase := OperationPhase.idle
        operationIsNewInsult := false
        operationStartedAt := t0 } : EngineState).historySize = 0
    · rcases hd : drawFromDeck rng n
          { s with
            pendingAction := PendingAction.next
            operationPhase := OperationPhase.idle
            operationIsNewInsult := false
            operationStartedAt := t0 } with ⟨idx, u2⟩
      have key := insultsStartOperation_true rng n PendingAction.next t0 s _
        (beginWorkFor_next_empty rng n _ idx u2 h0 hd)
      rw [key] at h
      have hdf := drawFromDeck_fields rng n
        { s with
          pendingAction := PendingAction.next
          operationPhase := OperationPhase.idle
          operationIsNewInsult := false
          operationStartedAt := t0 }
      rw [hd] at hdf
      dsimp only at hdf
      injection h with h1 h2
      subst h2
      exact ⟨rfl, hdf.2.2.2.2, hdf.2.2.2.1, hdf.1, hdf.2.1, hdf.2.2.1⟩
    · by_cases hp : ({ s with
          pendingAction := PendingAction.next
          operationPhase := OperationPhase.idle
          operationIsNewInsult := false
          operationStartedAt := t0 } : EngineState).historyPosition
          < ({ s with
              pendingAction := PendingAction.next
              operationPhase := OperationPhase.idle
              operationIsNewInsult := false
              operationStartedAt := t0 } : EngineState).historySize - 1
      · rcases hv : historyGetAtLogical n
            { s with
              pendingAction := PendingAction.next
              operationPhase := OperationPhase.idle
              operationIsNewInsult := false
              operationStartedAt := t0 }
            (({ s with
                pendingAction := PendingAction.next
                operationPhase := OperationPhase.idle
                operationIsNewInsult := false
                operationStartedAt := t0 } : EngineState).historyPosition + 1)
            with _ | v
        · have key := insultsStartOperation_false rng n PendingAction.next t0 s _
            (beginWorkFor_next_getNone rng n _ h0 hp hv)
          rw [key] at h
          exact absurd (congrArg Prod.fst h) (by simp)
        · have key := insultsStartOperation_true rng n PendingAction.next t0 s _
            (beginWorkFor_next_getSome rng n _ v h0 hp hv)
          rw [key] at h
          injection h with h1 h2
          subst h2
          exact ⟨rfl, rfl, rfl, rfl, rfl, rfl⟩
      · rcases hd : drawFromDeck rng n
            { s with
              pendingAction := PendingAction.next
              operationPhase := OperationPhase.idle
              operationIsNewInsult := false
              operationStartedAt := t0 } with ⟨idx, u2⟩
        have key := insultsStartOperation_true rng n PendingAction.next t0 s _
          (beginWorkFor_next_atEnd rng n _ idx u2 h0 hp hd)
        rw [key] at h
        have hdf := drawFromDeck_fields rng n
          { s with
            pendingAction := PendingAction.next
            operationPhase := OperationPhase.idle
            operationIsNewInsult := false
            operationStartedAt := t0 }
        rw [hd] at hdf
        dsimp only at hdf
        injection h with h1 h2
        subst h2
        exact ⟨rfl, hdf.2.2.2.2, hdf.2.2.2.1, hdf.1, hdf.2.1, hdf.2.2.1⟩

theorem insultsPoll_waiting_early (n now : Nat) (s : EngineState)
    (h1 : s.operationPhase = OperationPhase.waiting)
    (h2 : sub32 now s.operationStartedAt < MOCK_WORK_MS) :
    insultsPoll n now s = (false, s) := by
  unfold insultsPoll
  rw [if_neg (by simp [h1]), if_pos h2]

/-- An elapsed poll on a Waiting state whose completed intent does not
append (Prev, or Next replaying an existing entry): applies the pending
index, leaves the history untouched, and resets the phase. -/
theorem poll_completes_no_append (n now : Nat) (u : EngineState)
    (hphase : u.operationPhase = OperationPhase.waiting)
    (htime : MOCK_WORK_MS ≤ sub32 now u.operationStartedAt)
    (hno1 : ¬ u.pendingAction = PendingAction.random)
    (hno2 : ¬ (u.pendingAction = PendingAction.next ∧ u.operationIsNewInsult = true)) :
    (insultsPoll n now u).1 = true ∧
    (insultsPoll n now u).2.historySize = u.historySize ∧
    historyAbs n (insultsPoll n now u).2 = historyAbs n u ∧
    (insultsPoll n now u).2.currentInsultIndex = u.pendingInsultIndex ∧
    (insultsPoll n now u).2.operationPhase = OperationPhase.idle ∧
    (insultsPoll n now u).2.pendingAction = PendingAction.none := by
  have hcompl := insultsPoll_completes n now u hphase htime
  rw [hcompl]
  rw [completeOperation_no_append n u hno1 hno2]
  refine ⟨rfl, rfl, ?_, rfl, rfl, rfl⟩
  rw [historyAbs_finishOp]
  exact historyAbs_congr n _ _ rfl rfl rfl

/-- C1: for every accepted operation begun at time t0, poll returns false
while fewer than 800 time-units have elapsed; once 800 time-units have
elapsed, poll sets CurrentIndex to the operation's target index, appends
CurrentIndex to the history iff the completed intent was Random, or Next
with isNewContent true (Next without new content and Prev completions never
append), resets the phase to Idle, and returns true exactly once for that
operation: every later poll returns false. -/
theorem C1_poll_operation_lifecycle (rng : Nat → Nat) (n : Nat) (a : PendingAction)
    (t0 now1 now2 now3 : Nat) (s s1 : EngineState) (hn : 0 < n) (hWF : HistWF n s)
    (hstart : insultsStartOperation rng n a t0 s = (true, s1))
    (hlt : sub32 now1 t0 < MOCK_WORK_MS) (hge : MOCK_WORK_MS ≤ sub32 now2 t0) :
    insultsPoll n now1 s1 = (false, s1) ∧
    (insultsPoll n now2 s1).1 = true ∧
    (insultsPoll n now2 s1).2.currentInsultIndex = s1.pendingInsultIndex ∧
    (insultsPoll n now2 s1).2.operationPhase = OperationPhase.idle ∧
    historyAbs n (insultsPoll n now2 s1).2
      = (if a = PendingAction.random ∨
            (a = PendingAction.next ∧ s1.operationIsNewInsult = true)
         then ((historyAbs n s1) ++ [s1.pendingInsultIndex]).drop (s1.historySize + 1 - n)
         else historyAbs n s1) ∧
    (insultsPoll n now2 s1).2.historySize
      = (if a = PendingAction.random ∨
            (a = PendingAction.next ∧ s1.operationIsNewInsult = true)
         then (if s1.historySize < n then s1.historySize + 1 else s1.historySize)
         else s1.historySize) ∧
    insultsPoll n now3 (insultsPoll n now2 s1).2
      = (false, (insultsPoll n now2 s1).2) := by
  obtain ⟨hph, hst, hpa, hh, hhd, hhs⟩ :=
    insultsStartOperation_accepted_facts rng n a t0 s s1 hstart
  have hWF1 : HistWF n s1 := by
    refine ⟨?_, ?_, ?_⟩
    · rw [hh]
      exact hWF.1
    · rw [hhd]
      exact hWF.2.1
    · rw [hhs]
      exact hWF.2.2
  have htime2 : MOCK_WORK_MS ≤ sub32 now2 s1.operationStartedAt := by
    rw [hst]
    exact hge
  refine ⟨insultsPoll_waiting_early n now1 s1 hph (by rw [hst]; exact hlt), ?_⟩
  by_cases hC : a = PendingAction.random ∨
      (a = PendingAction.next ∧ s1.operationIsNewInsult = true)
  · obtain ⟨p1, p2, p3, p4, p5, p6⟩ :=
      poll_completes_append_abs n now2 s1 hn hWF1 hph htime2
        (by
          rcases hC with h | ⟨h1, h2⟩
          · exact Or.inl (by rw [hpa, h])
          · exact Or.inr ⟨by rw [hpa, h1], h2⟩)
    exact ⟨p1, p4, p5, by rw [if_pos hC]; exact p3, by rw [if_pos hC]; exact p2,
      insultsPoll_idle n now3 _ p5⟩
  · obtain ⟨p1, p2, p3, p4, p5, p6⟩ :=
      poll_completes_no_append n now2 s1 hph htime2
        (by
          intro hcon
          exact hC (Or.inl (by rw [← hpa]; exact hcon))
        )
        (by
          intro hcon
          exact hC (Or.inr ⟨by rw [← hpa]; exact hcon.1, hcon.2⟩))
    exact ⟨p1, p4, p5, by rw [if_neg hC]; exact p3, by rw [if_neg hC]; exact p2,
      insultsPoll_idle n now3 _ p5⟩

/-- C1 witness: a concrete accepted Prev operation started at t0 = 10,
polled at 809 (too early), 810 (completes) and again at 900 (idle). -/
theorem C1_poll_operation_lifecycle_witness :
    insultsPoll 4 809 c1S1 = (false, c1S1) ∧
    (insultsPoll 4 810 c1S1).1 = true ∧
    (insultsPoll 4 810 c1S1).2.currentInsultIndex = c1S1.pendingInsultIndex ∧
    (insultsPoll 4 810 c1S1).2.operationPhase = OperationPhase.idle ∧
    historyAbs 4 (insultsPoll 4 810 c1S1).2
      = (if PendingAction.prev = PendingAction.random ∨
            (PendingAction.prev = PendingAction.next ∧
              c1S1.operationIsNewInsult = true)
         then ((historyAbs 4 c1S1) ++ [c1S1.pendingInsultIndex]).drop
           (c1S1.historySize + 1 - 4)
         else historyAbs 4 c1S1) ∧
    (insultsPoll 4 810 c1S1).2.historySize
      = (if PendingAction.prev = PendingAction.random ∨
            (PendingAction.prev = PendingAction.next ∧
              c1S1.operationIsNewInsult = true)
         then (if c1S1.historySize < 4 then c1S1.historySize + 1 else c1S1.historySize)
         else c1S1.historySize) ∧
    insultsPoll 4 900 (insultsPoll 4 810 c1S1).2
      = (false, (insultsPoll 4 810 c1S1).2) :=
  C1_poll_operation_lifecycle (fun _ => 0) 4 PendingAction.prev 10 809 810 900
    c5State c1S1 (by decide) (by unfold HistWF; decide) (by decide) (by decide)
    (by decide)

theorem appendToHistory_pos (n : Nat) (s : EngineState) (x : Nat) (hn : 0 < n) :
    (appendToHistory n s x).historyPosition = (appendToHistory n s x).historySize - 1 ∧
    0 < (appendToHistory n s x).historySize := by
  unfold appendToHistory
  rw [if_neg hn.ne']
  refine ⟨rfl, ?_⟩
  dsimp only
  split <;> omega

theorem CursorInv_append (n : Nat) (s : EngineState) (x : Nat) (hn : 0 < n) :
    CursorInv (appendToHistory n s x) := by
  obtain ⟨h1, h2⟩ := appendToHistory_pos n s x hn
  intro _
  omega

theorem initDeck_fields (rng : Nat → Nat) (n : Nat) (s : EngineState) :
    (initDeck rng n s).history = s.history ∧
    (initDeck rng n s).historyHead = s.historyHead ∧
    (initDeck rng n s).historySize = s.historySize ∧
    (initDeck rng n s).historyPosition = s.historyPosition ∧
    (initDeck rng n s).currentInsultIndex = s.currentInsultIndex := by
  unfold initDeck
  rcases hfy : fyLoop rng (List.range n) s.rngTape (n - 1) with ⟨d, tp⟩
  exact ⟨rfl, rfl, rfl, rfl, rfl⟩

theorem drawFromDeck_pos (rng : Nat → Nat) (n : Nat) (u : EngineState) :
    (drawFromDeck rng n u).2.historyPosition = u.historyPosition ∧
    (drawFromDeck rng n u).2.currentInsultIndex = u.currentInsultIndex := by
  unfold drawFromDeck initDeck
  by_cases h : n = 0
  · rw [if_pos h]
    exact ⟨rfl, rfl⟩
  · rw [if_neg h]
    dsimp only
    by_cases h2 : n ≤ u.deckPosition
    · rw [if_pos h2]
      rcases hfy : fyLoop rng (List.range n) u.rngTape (n - 1) with ⟨d, tp⟩
      exact ⟨rfl, rfl⟩
    · rw [if_neg h2]
      exact ⟨rfl, rfl⟩

theorem beginWorkFor_cursor (rng : Nat → Nat) (n : Nat) (a : PendingAction)
    (t : EngineState) (ok : Bool) (s2 : EngineState) (hinv : CursorInv t)
    (hbw : beginWorkFor rng n a t = (ok, s2)) : CursorInv s2 := by
  cases a with
  | none =>
    rw [show beginWorkFor rng n PendingAction.none t
        = (false, { t with operationIsNewInsult := false }) from rfl] at hbw
    injection hbw with h1 h2
    subst h2
    exact hinv
  | random =>
    rcases hd : drawFromDeck rng n { t with operationIsNewInsult := false } with ⟨idx, u2⟩
    rw [beginWorkFor_random rng n t idx u2 hd] at hbw
    injection hbw with h1 h2
    subst h2
    have hp := (drawFromDeck_pos rng n { t with operationIsNewInsult := false }).1
    have hs := (drawFromDeck_fields rng n { t with operationIsNewInsult := false }).2.2.1
    rw [hd] at hp hs
    dsimp only at hp hs
    intro hpos
    dsimp only at hpos ⊢
    rw [hp, hs]
    rw [hs] at hpos
    exact hinv hpos
  | prev =>
    by_cases h0 : t.historySize = 0
    · rw [show beginWorkFor rng n PendingAction.prev t
          = (false, { t with operationIsNewInsult := false }) from by
        unfold beginWorkFor
        dsimp only
        rw [if_pos h0]] at hbw
      injection hbw with h1 h2
      subst h2
      exact hinv
    · by_cases hp : t.historyPosition = 0
      · rw [show beginWorkFor rng n PendingAction.prev t
            = (false, { t with operationIsNewInsult := false }) from by
          unfold beginWorkFor
          dsimp only
          rw [if_neg h0, if_pos hp]] at hbw
        injection hbw with h1 h2
        subst h2
        exact hinv
      · rcases hv : historyGetAtLogical n t (t.historyPosition - 1) with _ | v
        · rw [beginWorkFor_prev_getNone rng n t h0 hp hv] at hbw
          injection hbw with h1 h2
          subst h2
          intro hpos
          dsimp only at hpos ⊢
          have := hinv (by omega)
          omega
        · rw [beginWorkFor_prev_getSome rng n t v h0 hp hv] at hbw
          injection hbw with h1 h2
          subst h2
          intro hpos
          dsimp only at hpos ⊢
          have := hinv (by omega)
          omega
  | next =>
    by_cases h0 : t.historySize = 0
    · rcases hd : drawFromDeck rng n { t with operationIsNewInsult := false } with ⟨idx, u2⟩
      rw [beginWorkFor_next_empty rng n t idx u2 h0 hd] at hbw
      injection hbw with h1 h2
      subst h2
      have hp := (drawFromDeck_pos rng n { t with operationIsNewInsult := false }).1
      have hs := (drawFromDeck_fields rng n { t with operationIsNewInsult := false }).2.2.1
      rw [hd] at hp hs
      dsimp only at hp hs
      intro hpos
      dsimp only at hpos ⊢
      rw [hp, hs]
      rw [hs] at hpos
      exact hinv hpos
    · by_cases hp : t.historyPosition < t.historySize - 1
      · rcases hv : historyGetAtLogical n t (t.historyPosition + 1) with _ | v
        · rw [beginWorkFor_next_getNone rng n t h0 hp hv] at hbw
          injection hbw with h1 h2
          subst h2
          intro hpos
          dsimp only at hpos ⊢
          omega
        · rw [beginWorkFor_next_getSome rng n t v h0 hp hv] at hbw
          injection hbw with h1 h2
          subst h2
          intro hpos
          dsimp only at hpos ⊢
          omega
      · rcases hd : drawFromDeck rng n { t with operationIsNewInsult := false } with ⟨idx, u2⟩
        rw [beginWorkFor_next_atEnd rng n t idx u2 h0 hp hd] at hbw
        injection hbw with h1 h2
        subst h2
        have hps := (drawFromDeck_pos rng n { t with operationIsNewInsult := false }).1
        have hs := (drawFromDeck_fields rng n { t with operationIsNewInsult := false }).2.2.1
        rw [hd] at hps hs
        dsimp only at hps hs
        intro hpos
        dsimp only at hpos ⊢
        rw [hps, hs]
        rw [hs] at hpos
        exact hinv hpos

theorem insultsStartOperation_cursor (rng : Nat → Nat) (n : Nat) (a : PendingAction)
    (now : Nat) (s : EngineState) (hinv : CursorInv s) :
    CursorInv (insultsStartOperation rng n a now s).2 := by
  rcases hbw : beginWorkFor rng n a
      { s with
        pendingAction := a
        operationPhase := OperationPhase.idle
        operationIsNewInsult := false
        operationStartedAt := now } with ⟨ok, s2⟩
  have hc := beginWorkFor_cursor rng n a
    { s with
      pendingAction := a
      operationPhase := OperationPhase.idle
      operationIsNewInsult := false
      operationStartedAt := now } ok s2
    (show CursorInv { s with
        pendingAction := a
        operationPhase := OperationPhase.idle
        operationIsNewInsult := false
        operationStartedAt := now } from fun h => hinv h) hbw
  cases ok with
  | true =>
    rw [insultsStartOperation_true rng n a now s s2 hbw]
    exact hc
  | false =>
    rw [insultsStartOperation_false rng n a now s s2 hbw]
    exact fun h => hc h

theorem insultsPoll_cursor (n now : Nat) (s : EngineState) (hn : 0 < n)
    (hinv : CursorInv s) : CursorInv (insultsPoll n now s).2 := by
  by_cases h1 : s.operationPhase = OperationPhase.waiting
  · by_cases h2 : sub32 now s.operationStartedAt < MOCK_WORK_MS
    · rw [insultsPoll_waiting_early n now s h1 h2]
      exact hinv
    · rw [insultsPoll_completes n now s h1 (by omega)]
      by_cases hr : s.pendingAction = PendingAction.random
      · rw [completeOperation_random n s hr]
        exact fun h => CursorInv_append n _ _ hn h
      · by_cases hx : s.pendingAction = PendingAction.next ∧ s.operationIsNewInsult = true
        · rw [completeOperation_next_new n s hx.1 hx.2]
          exact fun h => CursorInv_append n _ _ hn h
        · rw [completeOperation_no_append n s hr hx]
          exact fun h => hinv h
  · unfold insultsPoll
    rw [if_pos h1]
    exact hinv

theorem load_cursor (n : Nat) (b? : Option Blob) (s : EngineState) (hn : 0 < n)
    (hinv : CursorInv s) : CursorInv (loadInsultsStateFromNvs n b? s).2 := by
  cases b? with
  | none => exact hinv
  | some b =>
    by_cases hbc : blobChecksPass n b
    · rw [load_success_state n s b hn hbc]
      intro hpos
      dsimp only at hpos ⊢
      obtain ⟨-, -, -, -, -, hp⟩ := hbc
      by_cases h0 : b.size = 0
      · omega
      · rw [if_neg h0] at hp
        omega
    · obtain ⟨-, -, hsz, hpos, -⟩ := load_failure_state n s b hn hbc
      intro h
      rw [hsz] at h
      rw [hpos, hsz]
      exact hinv h

theorem insultsInit_cursor (rng : Nat → Nat) (n : Nat) (p w : Bool)
    (b? : Option Blob) (s : EngineState) (hn : 0 < n) (hinv : CursorInv s) :
    CursorInv (insultsInit rng n p w b? s).2 := by
  have hinit : CursorInv (initDeck rng n s) := by
    obtain ⟨-, -, hs, hp, -⟩ := initDeck_fields rng n s
    intro h
    rw [hs] at h
    rw [hp, hs]
    exact hinv h
  unfold insultsInit
  cases w with
  | false =>
    rw [if_pos (by simp)]
    by_cases hp : p = true ∧ 0 < n
    · rw [if_pos hp]
      dsimp only
      exact fun h => CursorInv_append n _ _ hn h
    · rw [if_neg hp]
      intro hcon
      dsimp only at hcon
      omega
  | true =>
    rw [if_neg (by simp)]
    split
    next s1 heq =>
      have hl := load_cursor n b? (initDeck rng n s) hn hinit
      rw [heq] at hl
      exact hl
    next s1 heq =>
      rw [if_neg (by omega)]
      dsimp only
      exact fun h => CursorInv_append n _ _ hn h

/-- C9: the history cursor invariant — the cursor is within [0, size-1]
whenever size > 0 — is preserved by every engine operation (append, begin of
any intent, poll completion, and successful or failed restore, as well as
initialization), and every append leaves the cursor equal to size - 1,
pointing at the newest entry. -/
theorem C9_cursor_invariant (rng : Nat → Nat) (n now : Nat) (a : PendingAction)
    (x : Nat) (p w : Bool) (b? : Option Blob) (s : EngineState)
    (hn : 0 < n) (hinv : CursorInv s) :
    ((appendToHistory n s x).historyPosition = (appendToHistory n s x).historySize - 1 ∧
     0 < (appendToHistory n s x).historySize) ∧
    CursorInv (appendToHistory n s x) ∧
    CursorInv (insultsStartOperation rng n a now s).2 ∧
    CursorInv (insultsPoll n now s).2 ∧
    CursorInv (loadInsultsStateFromNvs n b? s).2 ∧
    CursorInv (insultsInit rng n p w b? s).2 :=
  ⟨appendToHistory_pos n s x hn, CursorInv_append n s x hn,
   insultsStartOperation_cursor rng n a now s hinv,
   insultsPoll_cursor n now s hn hinv,
   load_cursor n b? s hn hinv,
   insultsInit_cursor rng n p w b? s hn hinv⟩

/-- C9 witness: the invariant facts evaluated on a concrete well-formed
state, with a Prev begin, an in-flight poll, a failing restore and a wake
initialization. -/
theorem C9_cursor_invariant_witness :
    ((appendToHistory 4 c5State 2).historyPosition
       = (appendToHistory 4 c5State 2).historySize - 1 ∧
     0 < (appendToHistory 4 c5State 2).historySize) ∧
    CursorInv (appendToHistory 4 c5State 2) ∧
    CursorInv (insultsStartOperation (fun _ => 0) 4 PendingAction.prev 10 c5State).2 ∧
    CursorInv (insultsPoll 4 10 c5State).2 ∧
    CursorInv (loadInsultsStateFromNvs 4 (Option.some c3BadBlob) c5State).2 ∧
    CursorInv (insultsInit (fun _ => 0) 4 true true (Option.some c3BadBlob) c5State).2 :=
  C9_cursor_invariant (fun _ => 0) 4 10 PendingAction.prev 2 true true
    (Option.some c3BadBlob) c5State (by decide) (by unfold CursorInv; decide)

theorem fyLoop_perm (rng : Nat → Nat) (deck : List Nat) (tape i : Nat)
    (hi : i < deck.length) : ((fyLoop rng deck tape i).1).Perm deck := by
  induction i generalizing deck tape with
  | zero => exact List.Perm.refl deck
  | succ k ih =>
    have hswap := listSwap_perm deck (k + 1) (rng tape % (k + 2)) hi
      (by
        have : rng tape % (k + 2) < k + 2 := Nat.mod_lt _ (by omega)
        omega)
    have hlen : (listSwap deck (k + 1) (rng tape % (k + 2))).length = deck.length :=
      listSwap_length deck _ _
    have hrec := ih (listSwap deck (k + 1) (rng tape % (k + 2))) (tape + 1)
      (by omega)
    exact hrec.trans hswap

theorem initDeck_deck (rng : Nat → Nat) (n : Nat) (s : EngineState) (hn : 0 < n) :
    ((initDeck rng n s).deck).Perm (List.range n) ∧
    (initDeck rng n s).deckPosition = 0 := by
  unfold initDeck
  rcases hfy : fyLoop rng (List.range n) s.rngTape (n - 1) with ⟨d, tp⟩
  have hperm := fyLoop_perm rng (List.range n) s.rngTape (n - 1)
    (by simp; omega)
  rw [hfy] at hperm
  exact ⟨hperm, rfl⟩

theorem drawFromDeck_noReshuffle (rng : Nat → Nat) (n : Nat) (s : EngineState)
    (hn : 0 < n) (hpos : s.deckPosition < n) :
    drawFromDeck rng n s
      = (s.deck.getD s.deckPosition 0, { s with deckPosition := s.deckPosition + 1 }) ∧
    drawTriggersReshuffle n s = false := by
  constructor
  · unfold drawFromDeck
    rw [if_neg hn.ne']
    dsimp only
    rw [if_neg (by omega)]
  · unfold drawTriggersReshuffle
    rw [decide_eq_false_iff_not]
    omega

theorem drawFromDeck_reshuffle (rng : Nat → Nat) (n : Nat) (s : EngineState)
    (hn : 0 < n) (hpos : n ≤ s.deckPosition) :
    drawFromDeck rng n s
      = ((initDeck rng n s).deck.getD (initDeck rng n s).deckPosition 0,
         { initDeck rng n s with
           deckPosition := (initDeck rng n s).deckPosition + 1 }) ∧
    drawTriggersReshuffle n s = true := by
  constructor
  · unfold drawFromDeck
    rw [if_neg hn.ne']
    dsimp only
    rw [if_pos hpos]
  · unfold drawTriggersReshuffle
    rw [decide_eq_true_eq]
    omega

/-- A reshuffle-free run: while the deck position stays within the deck, a
run of `k` draws reads `k` consecutive deck entries in order, reports no
reshuffle, and only advances the position. -/
theorem drawSeq_run (rng : Nat → Nat) (n k : Nat) (s : EngineState) (hn : 0 < n)
    (hlen : s.deck.length = n) (hk : s.deckPosition + k ≤ n) :
    (drawSeq rng n k s).1
      = ((s.deck.drop s.deckPosition).take k).map (fun v => (v, false)) ∧
    (drawSeq rng n k s).2.deck = s.deck ∧
    (drawSeq rng n k s).2.deckPosition = s.deckPosition + k := by
  induction k generalizing s with
  | zero =>
    exact ⟨by simp [drawSeq], rfl, rfl⟩
  | succ k ih =>
    obtain ⟨hstep, -⟩ := drawFromDeck_noReshuffle rng n s hn (by omega)
    obtain ⟨-, hflag⟩ := drawFromDeck_noReshuffle rng n s hn (by omega)
    have hrec := ih { s with deckPosition := s.deckPosition + 1 }
      (by dsimp only; exact hlen) (by dsimp only; omega)
    have hposlt : s.deckPosition < s.deck.length := by omega
    have hdropstep : s.deck.drop s.deckPosition
        = s.deck[s.deckPosition] :: s.deck.drop (s.deckPosition + 1) :=
      List.drop_eq_getElem_cons hposlt
    simp only [drawSeq, hstep, hflag]
    refine ⟨?_, hrec.2.1, by rw [hrec.2.2]; dsimp only; omega⟩
    rw [hrec.1]
    dsimp only
    rw [hdropstep]
    rw [List.take_succ_cons, List.map_cons]
    rw [List.getD_eq_getElem _ _ hposlt]

theorem cons_getD_drop (l : List Nat) (h : 0 < l.length) :
    l.getD 0 0 :: l.drop 1 = l := by
  cases l with
  | nil => simp at h
  | cons a t => rfl

theorem map_fst_pairs (l : List Nat) :
    (l.map (fun v => (v, false))).map Prod.fst = l := by
  rw [List.map_map]
  exact (List.map_congr_left (fun a _ => rfl)).trans (List.map_id l)

theorem map_snd_pairs (l : List Nat) :
    (l.map (fun v => (v, false))).map Prod.snd = List.replicate l.length false := by
  rw [List.map_map]
  rw [show (Prod.snd ∘ fun v : Nat => (v, false)) = Function.const Nat false from rfl]
  exact List.map_const l false

/-- C6: for every N >= 1, drawing N times from a freshly reset ShuffleDeck
yields each index 0..N-1 exactly once (a permutation, no duplicates, no
reshuffle along the way), the (N+1)-th draw forces exactly one in-place
reshuffle, and it begins a fresh permutation cycle: the next N draws again
yield each index exactly once with no further reshuffle. -/
theorem C6_shuffle_deck_cycle (rng : Nat → Nat) (n : Nat) (s : EngineState)
    (hn : 1 ≤ n) :
    ((drawSeq rng n n (initDeck rng n s)).1.map Prod.fst).Perm (List.range n) ∧
    (drawSeq rng n n (initDeck rng n s)).1.map Prod.snd = List.replicate n false ∧
    drawTriggersReshuffle n (drawSeq rng n n (initDeck rng n s)).2 = true ∧
    ((drawSeq rng n n (drawSeq rng n n (initDeck rng n s)).2).1.map Prod.fst).Perm
      (List.range n) ∧
    (drawSeq rng n n (drawSeq rng n n (initDeck rng n s)).2).1.map Prod.snd
      = true :: List.replicate (n - 1) false := by
  have hn0 : 0 < n := hn
  obtain ⟨hperm1, hpos1⟩ := initDeck_deck rng n s hn0
  have hlen1 : (initDeck rng n s).deck.length = n := by
    rw [hperm1.length_eq, List.length_range]
  obtain ⟨hrun1, hdeck2, hpos2⟩ := drawSeq_run rng n n (initDeck rng n s) hn0 hlen1
    (by omega)
  have htake1 : ((initDeck rng n s).deck.drop (initDeck rng n s).deckPosition).take n
      = (initDeck rng n s).deck := by
    rw [hpos1, List.drop_zero]
    exact List.take_all_of_le (le_of_eq hlen1)
  rw [htake1] at hrun1
  have hfst1 : (drawSeq rng n n (initDeck rng n s)).1.map Prod.fst
      = (initDeck rng n s).deck := by
    rw [hrun1]
    exact map_fst_pairs _
  have hsnd1 : (drawSeq rng n n (initDeck rng n s)).1.map Prod.snd
      = List.replicate n false := by
    rw [hrun1, map_snd_pairs, hlen1]
  have hflag2 : drawTriggersReshuffle n (drawSeq rng n n (initDeck rng n s)).2 = true := by
    unfold drawTriggersReshuffle
    rw [decide_eq_true_eq]
    omega
  -- the second cycle
  obtain ⟨m, hm⟩ : ∃ m, n = m + 1 := ⟨n - 1, by omega⟩
  obtain ⟨hstep2, -⟩ := drawFromDeck_reshuffle rng n
    (drawSeq rng n n (initDeck rng n s)).2 hn0 (by omega)
  obtain ⟨hperm2, hpos2'⟩ := initDeck_deck rng n (drawSeq rng n n (initDeck rng n s)).2 hn0
  have hlen2 : (initDeck rng n (drawSeq rng n n (initDeck rng n s)).2).deck.length = n := by
    rw [hperm2.length_eq, List.length_range]
  obtain ⟨hrun2, -, -⟩ := drawSeq_run rng n m
    { initDeck rng n (drawSeq rng n n (initDeck rng n s)).2 with
      deckPosition :=
        (initDeck rng n (drawSeq rng n n (initDeck rng n s)).2).deckPosition + 1 }
    hn0 (by dsimp only; exact hlen2) (by dsimp only; omega)
  have hcount : drawSeq rng n n (drawSeq rng n n (initDeck rng n s)).2
      = drawSeq rng n (m + 1) (drawSeq rng n n (initDeck rng n s)).2 := by
    rw [← hm]
  have hshape : (drawSeq rng n n (drawSeq rng n n (initDeck rng n s)).2).1
      = ((initDeck rng n (drawSeq rng n n (initDeck rng n s)).2).deck.getD
           (initDeck rng n (drawSeq rng n n (initDeck rng n s)).2).deckPosition 0, true)
        :: (((initDeck rng n (drawSeq rng n n (initDeck rng n s)).2).deck.drop
              ((initDeck rng n (drawSeq rng n n (initDeck rng n s)).2).deckPosition + 1)).take
              m).map (fun v => (v, false)) := by
    rw [hcount]
    simp only [drawSeq]
    rw [hstep2, hflag2]
    dsimp only
    rw [hrun2]
  have htk2 : ((initDeck rng n (drawSeq rng n n (initDeck rng n s)).2).deck.drop
      ((initDeck rng n (drawSeq rng n n (initDeck rng n s)).2).deckPosition + 1)).take m
      = (initDeck rng n (drawSeq rng n n (initDeck rng n s)).2).deck.drop 1 := by
    rw [hpos2']
    refine List.take_all_of_le (le_of_eq ?_)
    rw [List.length_drop, hlen2, hm]
    omega
  rw [htk2] at hshape
  refine ⟨hfst1 ▸ hperm1, hsnd1, hflag2, ?_, ?_⟩
  · rw [hshape, List.map_cons, map_fst_pairs, hpos2']
    rw [cons_getD_drop _ (by omega)]
    exact hperm2
  · rw [hshape, List.map_cons, map_snd_pairs]
    rw [List.length_drop, hlen2, hm]

/-- C6 witness: a fresh three-card deck drawn through two full cycles. -/
theorem C6_shuffle_deck_cycle_witness :
    ((drawSeq (fun k => k + 1) 3 3 (initDeck (fun k => k + 1) 3 (zeroState 3))).1.map
       Prod.fst).Perm (List.range 3) ∧
    (drawSeq (fun k => k + 1) 3 3 (initDeck (fun k => k + 1) 3 (zeroState 3))).1.map
        Prod.snd = List.replicate 3 false ∧
    drawTriggersReshuffle 3
      (drawSeq (fun k => k + 1) 3 3 (initDeck (fun k => k + 1) 3 (zeroState 3))).2 = true ∧
    ((drawSeq (fun k => k + 1) 3 3
        (drawSeq (fun k => k + 1) 3 3 (initDeck (fun k => k + 1) 3 (zeroState 3))).2).1.map
       Prod.fst).Perm (List.range 3) ∧
    (drawSeq (fun k => k + 1) 3 3
        (drawSeq (fun k => k + 1) 3 3 (initDeck (fun k => k + 1) 3 (zeroState 3))).2).1.map
        Prod.snd = true :: List.replicate (3 - 1) false :=
  C6_shuffle_deck_cycle (fun k => k + 1) 3 (zeroState 3) (by decide)

/-- C8 (exhibit): with zero content items, drawFromDeck returns the safe
sentinel 0 without touching the deck, and begin(NewRandom) degrades to that
sentinel — but initDeck's Fisher-Yates loop start `size_t i = insultCount - 1`
wraps to 2^64 - 1, so the loop body runs and its first access `deck[i]` lies
outside the zero-length deck: module initialization does index outside the
empty deck, contradicting the claim. -/
theorem C8_zero_content_sentinel_and_underflow (rng : Nat → Nat) (s : EngineState) :
    drawFromDeck rng 0 s = (0, s) ∧
    beginWorkFor rng 0 PendingAction.random s
      = (true, { s with
          pendingInsultIndex := 0
          operationIsNewInsult := true
          operationPhase := OperationPhase.waiting }) ∧
    fisherYatesLoopBodyRuns 0 = true ∧
    fisherYatesStartIndexSizeT 0 = 18446744073709551615 ∧
    (List.range 0).length < fisherYatesStartIndexSizeT 0 :=
  ⟨rfl, rfl, by decide, by decide, by decide⟩

theorem sub32_small (x y : Nat) (hy : y ≤ x) (hx : x < 4294967296) :
    sub32 x y = x - y := by
  unfold sub32
  omega

theorem updateButton_reset (b : Button) (raw : Bool) (now : Nat)
    (h : ¬ raw = b.lastReading) :
    updateButton b raw now
      = (ButtonEvent.noEvent,
         { b with lastDebounceTime := now, lastReading := raw }) := by
  unfold updateButton
  rw [if_pos h]

theorem updateButton_bounceWait (b : Button) (raw : Bool) (now : Nat)
    (h1 : raw = b.lastReading) (h2 : sub32 now b.lastDebounceTime < DEBOUNCE_TIME_MS) :
    updateButton b raw now = (ButtonEvent.noEvent, b) := by
  unfold updateButton
  rw [if_neg (by simp [h1]), if_pos h2]

theorem updateButton_idle_released (b : Button) (now : Nat)
    (h1 : b.lastReading = false) (h2 : b.state = ButtonState.idle) :
    updateButton b false now = (ButtonEvent.noEvent, b) := by
  unfold updateButton
  rw [if_neg (by simp [h1])]
  by_cases hdb : sub32 now b.lastDebounceTime < DEBOUNCE_TIME_MS
  · rw [if_pos hdb]
  · rw [if_neg hdb, if_neg (by simp), if_neg (by simp [h2]), if_neg (by simp [h2])]

theorem updateButton_press (b : Button) (now : Nat)
    (h1 : b.lastReading = true)
    (h2 : ¬ sub32 now b.lastDebounceTime < DEBOUNCE_TIME_MS)
    (h3 : b.state = ButtonState.idle) :
    updateButton b true now
      = (ButtonEvent.noEvent,
         { b with state := ButtonState.pressed, pressedAt := now, holdFired := false }) := by
  unfold updateButton
  rw [if_neg (by simp [h1]), if_neg h2, if_pos ⟨rfl, h3⟩]

theorem updateButton_held_quiet (b : Button) (now : Nat)
    (h1 : b.lastReading = true)
    (h2 : ¬ sub32 now b.lastDebounceTime < DEBOUNCE_TIME_MS)
    (h3 : b.state = ButtonState.pressed)
    (h4 : ¬ (b.holdFired = false ∧ HOLD_THRESHOLD_MS ≤ sub32 now b.pressedAt)) :
    updateButton b true now = (ButtonEvent.noEvent, b) := by
  unfold updateButton
  rw [if_neg (by simp [h1]), if_neg h2, if_neg (by simp [h3]), if_neg (by simp),
    if_neg (fun hcon => h4 hcon.2)]

theorem updateButton_holdStart (b : Button) (now : Nat)
    (h1 : b.lastReading = true)
    (h2 : ¬ sub32 now b.lastDebounceTime < DEBOUNCE_TIME_MS)
    (h3 : b.state = ButtonState.pressed)
    (h4 : b.holdFired = false)
    (h5 : HOLD_THRESHOLD_MS ≤ sub32 now b.pressedAt) :
    updateButton b true now = (ButtonEvent.holdStart, { b with holdFired := true }) := by
  unfold updateButton
  rw [if_neg (by simp [h1]), if_neg h2, if_neg (by simp [h3]), if_neg (by simp),
    if_pos ⟨h3, h4, h5⟩]

theorem updateButton_release (b : Button) (now : Nat)
    (h1 : b.lastReading = false)
    (h2 : ¬ sub32 now b.lastDebounceTime < DEBOUNCE_TIME_MS)
    (h3 : b.state = ButtonState.pressed) :
    updateButton b false now
      = (if b.holdFired then ButtonEvent.holdEnd else ButtonEvent.tap,
         { b with state := ButtonState.idle }) := by
  unfold updateButton
  rw [if_neg (by simp [h1]), if_neg h2, if_neg (by simp), if_pos ⟨rfl, h3⟩]

theorem runButton_steady (f : Nat → Bool) (t k : Nat) (b : Button)
    (h : ∀ i, i < k → updateButton b (f (t + i)) (t + i) = (ButtonEvent.noEvent, b)) :
    runButton f t k b = (b, List.replicate k ButtonEvent.noEvent) := by
  induction k generalizing t with
  | zero => rfl
  | succ k ih =>
    have h0 := h 0 (by omega)
    rw [Nat.add_zero] at h0
    have hrec := ih (t + 1) (fun i hi => by
      have := h (i + 1) (by omega)
      rw [show t + (i + 1) = t + 1 + i from by omega] at this
      exact this)
    simp only [runButton, h0, hrec]
    rfl

theorem runButton_append (f : Nat → Bool) (k1 : Nat) (t k2 : Nat) (b : Button) :
    runButton f t (k1 + k2) b
      = ((runButton f (t + k1) k2 (runButton f t k1 b).1).1,
         (runButton f t k1 b).2 ++ (runButton f (t + k1) k2 (runButton f t k1 b).1).2) := by
  induction k1 generalizing t b with
  | zero =>
    simp only [Nat.zero_add, Nat.add_zero]
    rfl
  | succ k ih =>
    have hshift : k + 1 + k2 = (k + k2) + 1 := by omega
    rw [hshift]
    simp only [runButton]
    rw [ih (t + 1) (updateButton b (f t) t).2]
    rw [show t + (k + 1) = t + 1 + k from by omega]
    simp only [List.cons_append]

theorem runButton_one (f : Nat → Bool) (t : Nat) (b : Button) :
    runButton f t 1 b = ((updateButton b (f t) t).2, [(updateButton b (f t) t).1]) := rfl

theorem runButton_chain (f : Nat → Bool) (t k1 k2 : Nat) (b b1 : Button)
    (evs1 : List ButtonEvent) (h1 : runButton f t k1 b = (b1, evs1)) :
    runButton f t (k1 + k2) b
      = ((runButton f (t + k1) k2 b1).1,
         evs1 ++ (runButton f (t + k1) k2 b1).2) := by
  rw [runButton_append, h1]

theorem pressWindow_false (a L t : Nat) (h : t < a ∨ a + L ≤ t) :
    pressWindow a L t = false := by
  simp only [pressWindow, decide_eq_false_iff_not]
  omega

theorem pressWindow_true (a L t : Nat) (h : a ≤ t ∧ t < a + L) :
    pressWindow a L t = true := by
  simp only [pressWindow, decide_eq_true_eq]
  omega

/-- A clean press window `[a, a + L)` of raw length `31 ≤ L ≤ 830` (released
before the hold deadline `pressedAt + 800`, where `pressedAt = a + 30` is the
debounced recognition tick): the emitted events are all `noEvent` except a
single `tap` at the release-recognition tick `a + L + 30`. -/
theorem runButton_tap_cycle (a L : Nat) (hL1 : 30 < L) (hL2 : L ≤ 830)
    (hb : a + L + 31 < 4294967296) :
    runButton (pressWindow a L) 0 (a + L + 31) (buttonInit false 0)
      = (⟨false, ButtonState.idle, a + L, a + 30, false⟩,
         ((((((List.replicate a ButtonEvent.noEvent
            ++ [ButtonEvent.noEvent]) ++ List.replicate 29 ButtonEvent.noEvent)
            ++ [ButtonEvent.noEvent]) ++ List.replicate (L - 31) ButtonEvent.noEvent)
            ++ [ButtonEvent.noEvent]) ++ List.replicate 29 ButtonEvent.noEvent)
            ++ [ButtonEvent.tap]) := by
  rw [show a + L + 31 = a + 1 + 29 + 1 + (L - 31) + 1 + 29 + 1 from by omega]
  have run0 : runButton (pressWindow a L) 0 a (buttonInit false 0)
      = (buttonInit false 0, List.replicate a ButtonEvent.noEvent) :=
    runButton_steady _ _ _ _ (fun i hi => by
      rw [pressWindow_false a L (0 + i) (Or.inl (by omega))]
      exact updateButton_idle_released _ _ rfl rfl)
  have step1 : runButton (pressWindow a L) a 1 (buttonInit false 0)
      = (⟨true, ButtonState.idle, a, 0, false⟩, [ButtonEvent.noEvent]) := by
    rw [runButton_one, pressWindow_true a L a ⟨Nat.le_refl a, by omega⟩,
      updateButton_reset _ _ _ (by decide)]
    rfl
  have chainA : runButton (pressWindow a L) 0 (a + 1) (buttonInit false 0)
      = (⟨true, ButtonState.idle, a, 0, false⟩,
         List.replicate a ButtonEvent.noEvent ++ [ButtonEvent.noEvent]) := by
    rw [runButton_chain _ _ _ _ _ _ _ run0, Nat.zero_add, step1]
  have steady1 : runButton (pressWindow a L) (a + 1) 29 ⟨true, ButtonState.idle, a, 0, false⟩
      = (⟨true, ButtonState.idle, a, 0, false⟩, List.replicate 29 ButtonEvent.noEvent) :=
    runButton_steady _ _ _ _ (fun i hi => by
      rw [pressWindow_true a L (a + 1 + i) ⟨by omega, by omega⟩]
      exact updateButton_bounceWait _ _ _ rfl (by
        show sub32 (a + 1 + i) a < DEBOUNCE_TIME_MS
        rw [sub32_small _ _ (by omega) (by omega)]
        simp only [DEBOUNCE_TIME_MS]
        omega))
  have chainB : runButton (pressWindow a L) 0 (a + 1 + 29) (buttonInit false 0)
      = (⟨true, ButtonState.idle, a, 0, false⟩,
         (List.replicate a ButtonEvent.noEvent ++ [ButtonEvent.noEvent])
           ++ List.replicate 29 ButtonEvent.noEvent) := by
    rw [runButton_chain _ _ _ _ _ _ _ chainA, Nat.zero_add, steady1]
  have step2 : runButton (pressWindow a L) (a + 30) 1 ⟨true, ButtonState.idle, a, 0, false⟩
      = (⟨true, ButtonState.pressed, a, a + 30, false⟩, [ButtonEvent.noEvent]) := by
    rw [runButton_one, pressWindow_true a L (a + 30) ⟨by omega, by omega⟩,
      updateButton_press _ _ rfl (by
        show ¬ sub32 (a + 30) a < DEBOUNCE_TIME_MS
        rw [sub32_small _ _ (by omega) (by omega)]
        simp only [DEBOUNCE_TIME_MS]
        omega) rfl]
  have chainC : runButton (pressWindow a L) 0 (a + 1 + 29 + 1) (buttonInit false 0)
      = (⟨true, ButtonState.pressed, a, a + 30, false⟩,
         ((List.replicate a ButtonEvent.noEvent ++ [ButtonEvent.noEvent])
           ++ List.replicate 29 ButtonEvent.noEvent) ++ [ButtonEvent.noEvent]) := by
    rw [runButton_chain _ _ _ _ _ _ _ chainB,
      show (0 : Nat) + (a + 1 + 29) = a + 30 from by omega, step2]
  have steady2 : runButton (pressWindow a L) (a + 31) (L - 31)
        ⟨true, ButtonState.pressed, a, a + 30, false⟩
      = (⟨true, ButtonState.pressed, a, a + 30, false⟩,
         List.replicate (L - 31) ButtonEvent.noEvent) :=
    runButton_steady _ _ _ _ (fun i hi => by
      rw [pressWindow_true a L (a + 31 + i) ⟨by omega, by omega⟩]
      exact updateButton_held_quiet _ _ rfl (by
          show ¬ sub32 (a + 31 + i) a < DEBOUNCE_TIME_MS
          rw [sub32_small _ _ (by omega) (by omega)]
          simp only [DEBOUNCE_TIME_MS]
          omega) rfl (by
          intro hcon
          have h5 : HOLD_THRESHOLD_MS ≤ sub32 (a + 31 + i) (a + 30) := hcon.2
          rw [sub32_small _ _ (by omega) (by omega)] at h5
          simp only [HOLD_THRESHOLD_MS] at h5
          omega))
  have chainD : runButton (pressWindow a L) 0 (a + 1 + 29 + 1 + (L - 31)) (buttonInit false 0)
      = (⟨true, ButtonState.pressed, a, a + 30, false⟩,
         (((List.replicate a ButtonEvent.noEvent ++ [ButtonEvent.noEvent])
           ++ List.replicate 29 ButtonEvent.noEvent) ++ [ButtonEvent.noEvent])
           ++ List.replicate (L - 31) ButtonEvent.noEvent) := by
    rw [runButton_chain _ _ _ _ _ _ _ chainC,
      show (0 : Nat) + (a + 1 + 29 + 1) = a + 31 from by omega, steady2]
  have step3 : runButton (pressWindow a L) (a + L) 1
        ⟨true, ButtonState.pressed, a, a + 30, false⟩
      = (⟨false, ButtonState.pressed, a + L, a + 30, false⟩, [ButtonEvent.noEvent]) := by
    rw [runButton_one, pressWindow_false a L (a + L) (Or.inr (Nat.le_refl _)),
      updateButton_reset _ _ _ (by simp)]
  have chainE : runButton (pressWindow a L) 0 (a + 1 + 29 + 1 + (L - 31) + 1) (buttonInit false 0)
      = (⟨false, ButtonState.pressed, a + L, a + 30, false⟩,
         ((((List.replicate a ButtonEvent.noEvent ++ [ButtonEvent.noEvent])
           ++ List.replicate 29 ButtonEvent.noEvent) ++ [ButtonEvent.noEvent])
           ++ List.replicate (L - 31) ButtonEvent.noEvent) ++ [ButtonEvent.noEvent]) := by
    rw [runButton_chain _ _ _ _ _ _ _ chainD,
      show (0 : Nat) + (a + 1 + 29 + 1 + (L - 31)) = a + L from by omega, step3]
  have steady3 : runButton (pressWindow a L) (a + L + 1) 29
        ⟨false, ButtonState.pressed, a + L, a + 30, false⟩
      = (⟨false, ButtonState.pressed, a + L, a + 30, false⟩,
         List.replicate 29 ButtonEvent.noEvent) :=
    runButton_steady _ _ _ _ (fun i hi => by
      rw [pressWindow_false a L (a + L + 1 + i) (Or.inr (by omega))]
      exact updateButton_bounceWait _ _ _ rfl (by
        show sub32 (a + L + 1 + i) (a + L) < DEBOUNCE_TIME_MS
        rw [sub32_small _ _ (by omega) (by omega)]
        simp only [DEBOUNCE_TIME_MS]
        omega))
  have chainF : runButton (pressWindow a L) 0 (a + 1 + 29 + 1 + (L - 31) + 1 + 29)
        (buttonInit false 0)
      = (⟨false, ButtonState.pressed, a + L, a + 30, false⟩,
         (((((List.replicate a ButtonEvent.noEvent ++ [ButtonEvent.noEvent])
           ++ List.replicate 29 ButtonEvent.noEvent) ++ [ButtonEvent.noEvent])
           ++ List.replicate (L - 31) ButtonEvent.noEvent) ++ [ButtonEvent.noEvent])
           ++ List.replicate 29 ButtonEvent.noEvent) := by
    rw [runButton_chain _ _ _ _ _ _ _ chainE,
      show (0 : Nat) + (a + 1 + 29 + 1 + (L - 31) + 1) = a + L + 1 from by omega, steady3]
  have step4 : runButton (pressWindow a L) (a + L + 30) 1
        ⟨false, ButtonState.pressed, a + L, a + 30, false⟩
      = (⟨false, ButtonState.idle, a + L, a + 30, false⟩, [ButtonEvent.tap]) := by
    rw [runButton_one, pressWindow_false a L (a + L + 30) (Or.inr (by omega)),
      updateButton_release _ _ rfl (by
        show ¬ sub32 (a + L + 30) (a + L) < DEBOUNCE_TIME_MS
        rw [sub32_small _ _ (by omega) (by omega)]
        simp only [DEBOUNCE_TIME_MS]
        omega) rfl]
    rfl
  rw [runButton_chain _ _ _ _ _ _ _ chainF,
    show (0 : Nat) + (a + 1 + 29 + 1 + (L - 31) + 1 + 29) = a + L + 30 from by omega, step4]

/-- A clean press window of raw length `L ≥ 831` (still pressed when the hold
deadline `pressedAt + 800 = a + 830` arrives), run for exactly the press
duration: one `holdStart` fires at tick `a + 830`, no tap, no holdEnd yet. -/
theorem runButton_hold_press (a L : Nat) (hL : 830 < L)
    (hb : a + L + 31 < 4294967296) :
    runButton (pressWindow a L) 0 (a + L) (buttonInit false 0)
      = (⟨true, ButtonState.pressed, a, a + 30, true⟩,
         (((((List.replicate a ButtonEvent.noEvent
            ++ [ButtonEvent.noEvent]) ++ List.replicate 29 ButtonEvent.noEvent)
            ++ [ButtonEvent.noEvent]) ++ List.replicate 799 ButtonEvent.noEvent)
            ++ [ButtonEvent.holdStart]) ++ List.replicate (L - 831) ButtonEvent.noEvent) := by
  rw [show a + L = a + 1 + 29 + 1 + 799 + 1 + (L - 831) from by omega]
  have run0 : runButton (pressWindow a L) 0 a (buttonInit false 0)
      = (buttonInit false 0, List.replicate a ButtonEvent.noEvent) :=
    runButton_steady _ _ _ _ (fun i hi => by
      rw [pressWindow_false a L (0 + i) (Or.inl (by omega))]
      exact updateButton_idle_released _ _ rfl rfl)
  have step1 : runButton (pressWindow a L) a 1 (buttonInit false 0)
      = (⟨true, ButtonState.idle, a, 0, false⟩, [ButtonEvent.noEvent]) := by
    rw [runButton_one, pressWindow_true a L a ⟨Nat.le_refl a, by omega⟩,
      updateButton_reset _ _ _ (by decide)]
    rfl
  have chainA : runButton (pressWindow a L) 0 (a + 1) (buttonInit false 0)
      = (⟨true, ButtonState.idle, a, 0, false⟩,
         List.replicate a ButtonEvent.noEvent ++ [ButtonEvent.noEvent]) := by
    rw [runButton_chain _ _ _ _ _ _ _ run0, Nat.zero_add, step1]
  have steady1 : runButton (pressWindow a L) (a + 1) 29 ⟨true, ButtonState.idle, a, 0, false⟩
      = (⟨true, ButtonState.idle, a, 0, false⟩, List.replicate 29 ButtonEvent.noEvent) :=
    runButton_steady _ _ _ _ (fun i hi => by
      rw [pressWindow_true a L (a + 1 + i) ⟨by omega, by omega⟩]
      exact updateButton_bounceWait _ _ _ rfl (by
        show sub32 (a + 1 + i) a < DEBOUNCE_TIME_MS
        rw [sub32_small _ _ (by omega) (by omega)]
        simp only [DEBOUNCE_TIME_MS]
        omega))
  have chainB : runButton (pressWindow a L) 0 (a + 1 + 29) (buttonInit false 0)
      = (⟨true, ButtonState.idle, a, 0, false⟩,
         (List.replicate a ButtonEvent.noEvent ++ [ButtonEvent.noEvent])
           ++ List.replicate 29 ButtonEvent.noEvent) := by
    rw [runButton_chain _ _ _ _ _ _ _ chainA, Nat.zero_add, steady1]
  have step2 : runButton (pressWindow a L) (a + 30) 1 ⟨true, ButtonState.idle, a, 0, false⟩
      = (⟨true, ButtonState.pressed, a, a + 30, false⟩, [ButtonEvent.noEvent]) := by
    rw [runButton_one, pressWindow_true a L (a + 30) ⟨by omega, by omega⟩,
      updateButton_press _ _ rfl (by
        show ¬ sub32 (a + 30) a < DEBOUNCE_TIME_MS
        rw [sub32_small _ _ (by omega) (by omega)]
        simp only [DEBOUNCE_TIME_MS]
        omega) rfl]
  have chainC : runButton (pressWindow a L) 0 (a + 1 + 29 + 1) (buttonInit false 0)
      = (⟨true, ButtonState.pressed, a, a + 30, false⟩,
         ((List.replicate a ButtonEvent.noEvent ++ [ButtonEvent.noEvent])
           ++ List.replicate 29 ButtonEvent.noEvent) ++ [ButtonEvent.noEvent]) := by
    rw [runButton_chain _ _ _ _ _ _ _ chainB,
      show (0 : Nat) + (a + 1 + 29) = a + 30 from by omega, step2]
  have steady2 : runButton (pressWindow a L) (a + 31) 799
        ⟨true, ButtonState.pressed, a, a + 30, false⟩
      = (⟨true, ButtonState.pressed, a, a + 30, false⟩,
         List.replicate 799 ButtonEvent.noEvent) :=
    runButton_steady _ _ _ _ (fun i hi => by
      rw [pressWindow_true a L (a + 31 + i) ⟨by omega, by omega⟩]
      exact updateButton_held_quiet _ _ rfl (by
          show ¬ sub32 (a + 31 + i) a < DEBOUNCE_TIME_MS
          rw [sub32_small _ _ (by omega) (by omega)]
          simp only [DEBOUNCE_TIME_MS]
          omega) rfl (by
          intro hcon
          have h5 : HOLD_THRESHOLD_MS ≤ sub32 (a + 31 + i) (a + 30) := hcon.2
          rw [sub32_small _ _ (by omega) (by omega)] at h5
          simp only [HOLD_THRESHOLD_MS] at h5
          omega))
  have chainD : runButton (pressWindow a L) 0 (a + 1 + 29 + 1 + 799) (buttonInit false 0)
      = (⟨true, ButtonState.pressed, a, a + 30, false⟩,
         (((List.replicate a ButtonEvent.noEvent ++ [ButtonEvent.noEvent])
           ++ List.replicate 29 ButtonEvent.noEvent) ++ [ButtonEvent.noEvent])
           ++ List.replicate 799 ButtonEvent.noEvent) := by
    rw [runButton_chain _ _ _ _ _ _ _ chainC,
      show (0 : Nat) + (a + 1 + 29 + 1) = a + 31 from by omega, steady2]
  have stepH : runButton (pressWindow a L) (a + 830) 1
        ⟨true, ButtonState.pressed, a, a + 30, false⟩
      = (⟨true, ButtonState.pressed, a, a + 30, true⟩, [ButtonEvent.holdStart]) := by
    rw [runButton_one, pressWindow_true a L (a + 830) ⟨by omega, by omega⟩,
      updateButton_holdStart _ _ rfl (by
        show ¬ sub32 (a + 830) a < DEBOUNCE_TIME_MS
        rw [sub32_small _ _ (by omega) (by omega)]
        simp only [DEBOUNCE_TIME_MS]
        omega) rfl rfl (by
        show HOLD_THRESHOLD_MS ≤ sub32 (a + 830) (a + 30)
        rw [sub32_small _ _ (by omega) (by omega)]
        simp only [HOLD_THRESHOLD_MS]
        omega)]
  have chainE : runButton (pressWindow a L) 0 (a + 1 + 29 + 1 + 799 + 1) (buttonInit false 0)
      = (⟨true, ButtonState.pressed, a, a + 30, true⟩,
         ((((List.replicate a ButtonEvent.noEvent ++ [ButtonEvent.noEvent])
           ++ List.replicate 29 ButtonEvent.noEvent) ++ [ButtonEvent.noEvent])
           ++ List.replicate 799 ButtonEvent.noEvent) ++ [ButtonEvent.holdStart]) := by
    rw [runButton_chain _ _ _ _ _ _ _ chainD,
      show (0 : Nat) + (a + 1 + 29 + 1 + 799) = a + 830 from by omega, stepH]
  have steady2b : runButton (pressWindow a L) (a + 831) (L - 831)
        ⟨true, ButtonState.pressed, a, a + 30, true⟩
      = (⟨true, ButtonState.pressed, a, a + 30, true⟩,
         List.replicate (L - 831) ButtonEvent.noEvent) :=
    runButton_steady _ _ _ _ (fun i hi => by
      rw [pressWindow_true a L (a + 831 + i) ⟨by omega, by omega⟩]
      exact updateButton_held_quiet _ _ rfl (by
          show ¬ sub32 (a + 831 + i) a < DEBOUNCE_TIME_MS
          rw [sub32_small _ _ (by omega) (by omega)]
          simp only [DEBOUNCE_TIME_MS]
          omega) rfl (by
          intro hcon
          have h5 : (true : Bool) = false := hcon.1
          exact absurd h5 (by decide)))
  rw [runButton_chain _ _ _ _ _ _ _ chainE,
    show (0 : Nat) + (a + 1 + 29 + 1 + 799 + 1) = a + 831 from by omega, steady2b]

/-- A clean press window of raw length `L ≥ 831`, run through release and
its debounce: the full cycle has exactly one `holdStart` (during the press)
and one `holdEnd` (at the release-recognition tick), and no tap. -/
theorem runButton_hold_cycle (a L : Nat) (hL : 830 < L)
    (hb : a + L + 31 < 4294967296) :
    runButton (pressWindow a L) 0 (a + L + 31) (buttonInit false 0)
      = (⟨false, ButtonState.idle, a + L, a + 30, true⟩,
         (((((((List.replicate a ButtonEvent.noEvent
            ++ [ButtonEvent.noEvent]) ++ List.replicate 29 ButtonEvent.noEvent)
            ++ [ButtonEvent.noEvent]) ++ List.replicate 799 ButtonEvent.noEvent)
            ++ [ButtonEvent.holdStart]) ++ List.replicate (L - 831) ButtonEvent.noEvent)
            ++ [ButtonEvent.noEvent]) ++ List.replicate 29 ButtonEvent.noEvent
            ++ [ButtonEvent.holdEnd]) := by
  rw [show a + L + 31 = a + L + 1 + 29 + 1 from by omega]
  have hpress := runButton_hold_press a L hL hb
  have step3 : runButton (pressWindow a L) (a + L) 1
        ⟨true, ButtonState.pressed, a, a + 30, true⟩
      = (⟨false, ButtonState.pressed, a + L, a + 30, true⟩, [ButtonEvent.noEvent]) := by
    rw [runButton_one, pressWindow_false a L (a + L) (Or.inr (Nat.le_refl _)),
      updateButton_reset _ _ _ (by simp)]
  have chainE : runButton (pressWindow a L) 0 (a + L + 1) (buttonInit false 0)
      = (⟨false, ButtonState.pressed, a + L, a + 30, true⟩,
         ((((((List.replicate a ButtonEvent.noEvent
            ++ [ButtonEvent.noEvent]) ++ List.replicate 29 ButtonEvent.noEvent)
            ++ [ButtonEvent.noEvent]) ++ List.replicate 799 ButtonEvent.noEvent)
            ++ [ButtonEvent.holdStart]) ++ List.replicate (L - 831) ButtonEvent.noEvent)
            ++ [ButtonEvent.noEvent]) := by
    rw [runButton_chain _ _ _ _ _ _ _ hpress, Nat.zero_add, step3]
  have steady3 : runButton (pressWindow a L) (a + L + 1) 29
        ⟨false, ButtonState.pressed, a + L, a + 30, true⟩
      = (⟨false, ButtonState.pressed, a + L, a + 30, true⟩,
         List.replicate 29 ButtonEvent.noEvent) :=
    runButton_steady _ _ _ _ (fun i hi => by
      rw [pressWindow_false a L (a + L + 1 + i) (Or.inr (by omega))]
      exact updateButton_bounceWait _ _ _ rfl (by
        show sub32 (a + L + 1 + i) (a + L) < DEBOUNCE_TIME_MS
        rw [sub32_small _ _ (by omega) (by omega)]
        simp only [DEBOUNCE_TIME_MS]
        omega))
  have chainF : runButton (pressWindow a L) 0 (a + L + 1 + 29) (buttonInit false 0)
      = (⟨false, ButtonState.pressed, a + L, a + 30, true⟩,
         (((((((List.replicate a ButtonEvent.noEvent
            ++ [ButtonEvent.noEvent]) ++ List.replicate 29 ButtonEvent.noEvent)
            ++ [ButtonEvent.noEvent]) ++ List.replicate 799 ButtonEvent.noEvent)
            ++ [ButtonEvent.holdStart]) ++ List.replicate (L - 831) ButtonEvent.noEvent)
            ++ [ButtonEvent.noEvent]) ++ List.replicate 29 ButtonEvent.noEvent) := by
    rw [runButton_chain _ _ _ _ _ _ _ chainE, Nat.zero_add, steady3]
  have step4 : runButton (pressWindow a L) (a + L + 30) 1
        ⟨false, ButtonState.pressed, a + L, a + 30, true⟩
      = (⟨false, ButtonState.idle, a + L, a + 30, true⟩, [ButtonEvent.holdEnd]) := by
    rw [runButton_one, pressWindow_false a L (a + L + 30) (Or.inr (by omega)),
      updateButton_release _ _ rfl (by
        show ¬ sub32 (a + L + 30) (a + L) < DEBOUNCE_TIME_MS
        rw [sub32_small _ _ (by omega) (by omega)]
        simp only [DEBOUNCE_TIME_MS]
        omega) rfl]
    rfl
  rw [runButton_chain _ _ _ _ _ _ _ chainF,
    show (0 : Nat) + (a + L + 1 + 29) = a + L + 30 from by omega, step4,
    List.append_assoc _ (List.replicate 29 ButtonEvent.noEvent)]

/-- C7: a single clean press-release cycle, observed by once-per-tick
updateButton calls from a settled released baseline, yields exactly one tap
and no hold events when the press ends before the hold deadline
(`pressStartTime + 800`, where `pressStartTime = a + 30` is the debounced
press recognition, so raw window length `Lt ≤ 830`), and exactly one
holdStart during the press plus exactly one holdEnd on release and no tap
when the press is still held at that deadline (raw window length
`Lh ≥ 831`) — never both a tap and a hold event for the same gesture. -/
theorem C7_tap_hold_classification (a Lt Lh : Nat)
    (hLt1 : DEBOUNCE_TIME_MS < Lt)
    (hLt2 : Lt ≤ HOLD_THRESHOLD_MS + DEBOUNCE_TIME_MS)
    (hLh : HOLD_THRESHOLD_MS + DEBOUNCE_TIME_MS < Lh)
    (hbt : a + Lt + 31 < 4294967296)
    (hbh : a + Lh + 31 < 4294967296) :
    ((runButton (pressWindow a Lt) 0 (a + Lt + 31) (buttonInit false 0)).2.count
        ButtonEvent.tap = 1 ∧
     (runButton (pressWindow a Lt) 0 (a + Lt + 31) (buttonInit false 0)).2.count
        ButtonEvent.holdStart = 0 ∧
     (runButton (pressWindow a Lt) 0 (a + Lt + 31) (buttonInit false 0)).2.count
        ButtonEvent.holdEnd = 0) ∧
    ((runButton (pressWindow a Lh) 0 (a + Lh) (buttonInit false 0)).2.count
        ButtonEvent.holdStart = 1 ∧
     (runButton (pressWindow a Lh) 0 (a + Lh) (buttonInit false 0)).2.count
        ButtonEvent.tap = 0 ∧
     (runButton (pressWindow a Lh) 0 (a + Lh) (buttonInit false 0)).2.count
        ButtonEvent.holdEnd = 0) ∧
    ((runButton (pressWindow a Lh) 0 (a + Lh + 31) (buttonInit false 0)).2.count
        ButtonEvent.tap = 0 ∧
     (runButton (pressWindow a Lh) 0 (a + Lh + 31) (buttonInit false 0)).2.count
        ButtonEvent.holdStart = 1 ∧
     (runButton (pressWindow a Lh) 0 (a + Lh + 31) (buttonInit false 0)).2.count
        ButtonEvent.holdEnd = 1) := by
  have hLt1' : 30 < Lt := by simpa [DEBOUNCE_TIME_MS] using hLt1
  have hLt2' : Lt ≤ 830 := by
    simpa [DEBOUNCE_TIME_MS, HOLD_THRESHOLD_MS] using hLt2
  have hLh' : 830 < Lh := by
    simpa [DEBOUNCE_TIME_MS, HOLD_THRESHOLD_MS] using hLh
  rw [runButton_tap_cycle a Lt hLt1' hLt2' hbt,
    runButton_hold_press a Lh hLh' hbh,
    runButton_hold_cycle a Lh hLh' hbh]
  refine ⟨⟨?_, ?_, ?_⟩, ⟨?_, ?_, ?_⟩, ?_, ?_, ?_⟩ <;>
    · simp only [List.count_append, List.count_replicate, List.count_cons,
        List.count_nil, List.count_singleton]
      simp

theorem C7_tap_hold_classification_witness :
    DEBOUNCE_TIME_MS < 31 ∧ 31 ≤ HOLD_THRESHOLD_MS + DEBOUNCE_TIME_MS ∧
    HOLD_THRESHOLD_MS + DEBOUNCE_TIME_MS < 831 ∧
    (0 : Nat) + 31 + 31 < 4294967296 ∧ (0 : Nat) + 831 + 31 < 4294967296 ∧
    (runButton (pressWindow 0 31) 0 (0 + 31 + 31) (buttonInit false 0)).2.count
        ButtonEvent.tap = 1 ∧
    (runButton (pressWindow 0 831) 0 (0 + 831 + 31) (buttonInit false 0)).2.count
        ButtonEvent.holdStart = 1 :=
  ⟨by decide, by decide, by decide, by decide, by decide,
   (C7_tap_hold_classification 0 31 831 (by decide) (by decide) (by decide)
      (by decide) (by decide)).1.1,
   (C7_tap_hold_classification 0 31 831 (by decide) (by decide) (by decide)
      (by decide) (by decide)).2.2.2.1⟩

theorem getD_lt (n : Nat) (l : List Nat) (i : Nat) (hn : 0 < n)
    (h : ∀ x ∈ l, x < n) : l.getD i 0 < n := by
  by_cases hi : i < l.length
  · rw [List.getD_eq_getElem l 0 hi]
    exact h _ (List.getElem_mem hi)
  · rw [List.getD_eq_default l 0 (by omega)]
    exact hn

theorem historyAbs_entries_lt (n : Nat) (s : EngineState) (hn : 0 < n)
    (h : ∀ x ∈ s.history, x < n) : ∀ x ∈ historyAbs n s, x < n := by
  intro x hx
  unfold historyAbs at hx
  obtain ⟨l, hl, rfl⟩ := List.mem_map.mp hx
  exact getD_lt n s.history _ hn h

theorem GoodIdx_reach (n : Nat) (s : EngineState) (hn : 0 < n) (h : GoodIdx n s)
    (l j : Nat) (hg : historyGetAtLogical n s l = Option.some j) : j < n := by
  rw [historyGetAtLogical_eq_abs n s hn l] at hg
  obtain ⟨hlt, hj⟩ := List.getElem?_eq_some.mp hg
  exact h.2.2.2.2 _ (hj ▸ List.getElem_mem hlt)

theorem GoodIdx_initDeck (rng : Nat → Nat) (n : Nat) (s : EngineState) (hn : 0 < n)
    (h : GoodIdx n s) : GoodIdx n (initDeck rng n s) := by
  obtain ⟨hwf, hcur, hpend, hdeck, habs⟩ := h
  have hperm := (initDeck_deck rng n s hn).1
  exact ⟨hwf, hcur, hpend,
    fun x hx => List.mem_range.mp (hperm.mem_iff.mp hx), habs⟩

theorem GoodIdx_draw (rng : Nat → Nat) (n : Nat) (s : EngineState) (hn : 0 < n)
    (h : GoodIdx n s) :
    GoodIdx n (drawFromDeck rng n s).2 ∧ (drawFromDeck rng n s).1 < n := by
  unfold drawFromDeck
  rw [if_neg hn.ne']
  dsimp only
  by_cases hpos : n ≤ s.deckPosition
  · rw [if_pos hpos]
    obtain ⟨hwf, hcur, hpend, hdeck, habs⟩ := GoodIdx_initDeck rng n s hn h
    exact ⟨⟨hwf, hcur, hpend, hdeck, habs⟩, getD_lt n _ _ hn hdeck⟩
  · rw [if_neg hpos]
    obtain ⟨hwf, hcur, hpend, hdeck, habs⟩ := h
    exact ⟨⟨hwf, hcur, hpend, hdeck, habs⟩, getD_lt n _ _ hn hdeck⟩

theorem appendToHistory_fields2 (n : Nat) (s : EngineState) (x : Nat) :
    (appendToHistory n s x).pendingInsultIndex = s.pendingInsultIndex ∧
    (appendToHistory n s x).deck = s.deck := by
  unfold appendToHistory
  split
  · exact ⟨rfl, rfl⟩
  · exact ⟨rfl, rfl⟩

theorem GoodIdx_append (n : Nat) (s : EngineState) (x : Nat) (hx : x < n)
    (h : GoodIdx n s) : GoodIdx n (appendToHistory n s x) := by
  obtain ⟨hwf, hcur, hpend, hdeck, habs⟩ := h
  have hn : 0 < n := Nat.lt_of_le_of_lt (Nat.zero_le _) hwf.2.1
  refine ⟨appendToHistory_WF n s x hwf, ?_, ?_, ?_, ?_⟩
  · rw [appendToHistory_cur]
    exact hcur
  · rw [(appendToHistory_fields2 n s x).1]
    exact hpend
  · rw [(appendToHistory_fields2 n s x).2]
    exact hdeck
  · intro y hy
    rw [historyAbs_append2 n s x hwf] at hy
    rcases List.mem_append.mp (List.mem_of_mem_drop hy) with h1 | h1
    · exact habs y h1
    · rw [List.mem_singleton.mp h1]
      exact hx

theorem beginWorkFor_goodIdx (rng : Nat → Nat) (n : Nat) (a : PendingAction)
    (t : EngineState) (ok : Bool) (s2 : EngineState) (hn : 0 < n)
    (hinv : GoodIdx n t) (hbw : beginWorkFor rng n a t = (ok, s2)) :
    GoodIdx n s2 := by
  cases a with
  | none =>
    rw [show beginWorkFor rng n PendingAction.none t
        = (false, { t with operationIsNewInsult := false }) from rfl] at hbw
    injection hbw with h1 h2
    subst h2
    exact hinv
  | random =>
    rcases hd : drawFromDeck rng n { t with operationIsNewInsult := false } with ⟨idx, u2⟩
    rw [beginWorkFor_random rng n t idx u2 hd] at hbw
    injection hbw with h1 h2
    subst h2
    have hdraw := GoodIdx_draw rng n { t with operationIsNewInsult := false } hn
      (show GoodIdx n { t with operationIsNewInsult := false } from hinv)
    rw [hd] at hdraw
    obtain ⟨⟨hwf, hcur, hpend, hdeck, habs⟩, hidx⟩ := hdraw
    exact ⟨hwf, hcur, hidx, hdeck, habs⟩
  | prev =>
    by_cases h0 : t.historySize = 0
    · rw [show beginWorkFor rng n PendingAction.prev t
          = (false, { t with operationIsNewInsult := false }) from by
        unfold beginWorkFor
        dsimp only
        rw [if_pos h0]] at hbw
      injection hbw with h1 h2
      subst h2
      exact hinv
    · by_cases hp : t.historyPosition = 0
      · rw [show beginWorkFor rng n PendingAction.prev t
            = (false, { t with operationIsNewInsult := false }) from by
          unfold beginWorkFor
          dsimp only
          rw [if_neg h0, if_pos hp]] at hbw
        injection hbw with h1 h2
        subst h2
        exact hinv
      · rcases hv : historyGetAtLogical n t (t.historyPosition - 1) with _ | v
        · rw [beginWorkFor_prev_getNone rng n t h0 hp hv] at hbw
          injection hbw with h1 h2
          subst h2
          exact hinv
        · rw [beginWorkFor_prev_getSome rng n t v h0 hp hv] at hbw
          injection hbw with h1 h2
          subst h2
          obtain ⟨hwf, hcur, hpend, hdeck, habs⟩ := hinv
          exact ⟨hwf, hcur, GoodIdx_reach n t hn ⟨hwf, hcur, hpend, hdeck, habs⟩ _ v hv,
            hdeck, habs⟩
  | next =>
    by_cases h0 : t.historySize = 0
    · rcases hd : drawFromDeck rng n { t with operationIsNewInsult := false } with ⟨idx, u2⟩
      rw [beginWorkFor_next_empty rng n t idx u2 h0 hd] at hbw
      injection hbw with h1 h2
      subst h2
      have hdraw := GoodIdx_draw rng n { t with operationIsNewInsult := false } hn
        (show GoodIdx n { t with operationIsNewInsult := false } from hinv)
      rw [hd] at hdraw
      obtain ⟨⟨hwf, hcur, hpend, hdeck, habs⟩, hidx⟩ := hdraw
      exact ⟨hwf, hcur, hidx, hdeck, habs⟩
    · by_cases hp : t.historyPosition < t.historySize - 1
      · rcases hv : historyGetAtLogical n t (t.historyPosition + 1) with _ | v
        · rw [beginWorkFor_next_getNone rng n t h0 hp hv] at hbw
          injection hbw with h1 h2
          subst h2
          exact hinv
        · rw [beginWorkFor_next_getSome rng n t v h0 hp hv] at hbw
          injection hbw with h1 h2
          subst h2
          obtain ⟨hwf, hcur, hpend, hdeck, habs⟩ := hinv
          exact ⟨hwf, hcur, GoodIdx_reach n t hn ⟨hwf, hcur, hpend, hdeck, habs⟩ _ v hv,
            hdeck, habs⟩
      · rcases hd : drawFromDeck rng n { t with operationIsNewInsult := false } with ⟨idx, u2⟩
        rw [beginWorkFor_next_atEnd rng n t idx u2 h0 hp hd] at hbw
        injection hbw with h1 h2
        subst h2
        have hdraw := GoodIdx_draw rng n { t with operationIsNewInsult := false } hn
          (show GoodIdx n { t with operationIsNewInsult := false } from hinv)
        rw [hd] at hdraw
        obtain ⟨⟨hwf, hcur, hpend, hdeck, habs⟩, hidx⟩ := hdraw
        exact ⟨hwf, hcur, hidx, hdeck, habs⟩

theorem insultsStartOperation_goodIdx (rng : Nat → Nat) (n : Nat) (a : PendingAction)
    (now : Nat) (s : EngineState) (hn : 0 < n) (hinv : GoodIdx n s) :
    GoodIdx n (insultsStartOperation rng n a now s).2 := by
  rcases hbw : beginWorkFor rng n a
      { s with
        pendingAction := a
        operationPhase := OperationPhase.idle
        operationIsNewInsult := false
        operationStartedAt := now } with ⟨ok, s2⟩
  have hc := beginWorkFor_goodIdx rng n a
    { s with
      pendingAction := a
      operationPhase := OperationPhase.idle
      operationIsNewInsult := false
      operationStartedAt := now } ok s2 hn
    (show GoodIdx n { s with
        pendingAction := a
        operationPhase := OperationPhase.idle
        operationIsNewInsult := false
        operationStartedAt := now } from hinv) hbw
  cases ok with
  | true =>
    rw [insultsStartOperation_true rng n a now s s2 hbw]
    exact hc
  | false =>
    rw [insultsStartOperation_false rng n a now s s2 hbw]
    obtain ⟨hwf, hcur, hpend, hdeck, habs⟩ := hc
    exact ⟨hwf, hcur, hpend, hdeck, habs⟩

theorem finishOp_goodIdx (n : Nat) (t : EngineState) (h : GoodIdx n t) :
    GoodIdx n (finishOp t) := by
  obtain ⟨hwf, hcur, hpend, hdeck, habs⟩ := h
  exact ⟨hwf, hcur, hpend, hdeck, habs⟩

theorem insultsPoll_goodIdx (n now : Nat) (s : EngineState) (hn : 0 < n)
    (hinv : GoodIdx n s) : GoodIdx n (insultsPoll n now s).2 := by
  by_cases h1 : s.operationPhase = OperationPhase.waiting
  · by_cases h2 : sub32 now s.operationStartedAt < MOCK_WORK_MS
    · rw [insultsPoll_waiting_early n now s h1 h2]
      exact hinv
    · rw [insultsPoll_completes n now s h1 (by omega)]
      obtain ⟨hwf, hcur, hpend, hdeck, habs⟩ := hinv
      have hmid : GoodIdx n { s with currentInsultIndex := s.pendingInsultIndex } :=
        ⟨hwf, hpend, hpend, hdeck, habs⟩
      by_cases hr : s.pendingAction = PendingAction.random
      · rw [completeOperation_random n s hr]
        exact finishOp_goodIdx n _ (GoodIdx_append n _ _ hpend hmid)
      · by_cases hx : s.pendingAction = PendingAction.next ∧ s.operationIsNewInsult = true
        · rw [completeOperation_next_new n s hx.1 hx.2]
          exact finishOp_goodIdx n _ (GoodIdx_append n _ _ hpend hmid)
        · rw [completeOperation_no_append n s hr hx]
          exact finishOp_goodIdx n _ hmid
  · unfold insultsPoll
    rw [if_pos h1]
    exact hinv

theorem load_goodIdx (n : Nat) (b? : Option Blob) (s : EngineState) (hn : 0 < n)
    (hb : ∀ b, b? = Option.some b → ∀ x ∈ b.hist, x < n)
    (hinv : GoodIdx n s) : GoodIdx n (loadInsultsStateFromNvs n b? s).2 := by
  cases b? with
  | none => exact hinv
  | some b =>
    have hbe : ∀ x ∈ b.hist, x < n := hb b rfl
    obtain ⟨hwf, hcur, hpend, hdeck, habs⟩ := hinv
    by_cases hm : b.magic = NVS_MAGIC
    · by_cases hlen : b.hist.length = n
      · by_cases hv : b.cur < n ∧ b.size ≤ n ∧ b.head < n ∧
            b.pos ≤ (if b.size = 0 then 0 else b.size - 1)
        · have heq : loadInsultsStateFromNvs n (Option.some b) s
              = (true, { s with
                  history := b.hist
                  historyHead := b.head
                  historySize := b.size
                  historyPosition := b.pos
                  currentInsultIndex := b.cur }) :=
            load_success_state n s b hn ⟨hm, hlen, hv.1, hv.2.1, hv.2.2.1, hv.2.2.2⟩
          rw [heq]
          refine ⟨⟨hlen, hv.2.2.1, hv.2.1⟩, hv.1, hpend, hdeck, ?_⟩
          exact historyAbs_entries_lt n _ hn hbe
        · have heq : loadInsultsStateFromNvs n (Option.some b) s
              = (false, { s with history := b.hist }) := by
            simp only [loadInsultsStateFromNvs]
            rw [if_neg (by simp [hm]), if_neg (by simp [hlen]), if_neg (by omega),
              if_neg hv]
          rw [heq]
          refine ⟨⟨hlen, hwf.2.1, hwf.2.2⟩, hcur, hpend, hdeck, ?_⟩
          exact historyAbs_entries_lt n _ hn hbe
      · have heq : loadInsultsStateFromNvs n (Option.some b) s
            = (false, s) := by
          simp only [loadInsultsStateFromNvs]
          rw [if_neg (by simp [hm]), if_pos (by simpa using hlen)]
        rw [heq]
        exact ⟨hwf, hcur, hpend, hdeck, habs⟩
    · have heq : loadInsultsStateFromNvs n (Option.some b) s
          = (false, s) := by
        simp only [loadInsultsStateFromNvs]
        rw [if_pos (by simpa using hm)]
      rw [heq]
      exact ⟨hwf, hcur, hpend, hdeck, habs⟩

theorem historySize_zero_abs (n : Nat) (s : EngineState) (h : s.historySize = 0) :
    historyAbs n s = [] := by
  unfold historyAbs
  rw [h]
  rfl

theorem insultsInit_goodIdx (rng : Nat → Nat) (n : Nat) (p w : Bool)
    (b? : Option Blob) (s : EngineState) (hn : 0 < n)
    (hb : ∀ b, b? = Option.some b → ∀ x ∈ b.hist, x < n)
    (hinv : GoodIdx n s) : GoodIdx n (insultsInit rng n p w b? s).2 := by
  have hinit : GoodIdx n (initDeck rng n s) := GoodIdx_initDeck rng n s hn hinv
  obtain ⟨hwf0, hcur0, hpend0, hdeck0, habs0⟩ := hinit
  have hreset : GoodIdx n { initDeck rng n s with
      historyHead := 0, historySize := 0, historyPosition := 0 } := by
    refine ⟨⟨hwf0.1, hn, Nat.zero_le n⟩, hcur0, hpend0, hdeck0, ?_⟩
    intro x hx
    rw [historySize_zero_abs n _ rfl] at hx
    cases hx
  unfold insultsInit
  cases w with
  | false =>
    rw [if_pos (by simp)]
    by_cases hp : p = true ∧ 0 < n
    · rw [if_pos hp]
      dsimp only
      rcases hd : drawFromDeck rng n { initDeck rng n s with
          historyHead := 0, historySize := 0, historyPosition := 0 } with ⟨idx, u2⟩
      have hdraw := GoodIdx_draw rng n _ hn hreset
      rw [hd] at hdraw
      obtain ⟨⟨hwf, hcur, hpend, hdeck, habs⟩, hidx⟩ := hdraw
      exact GoodIdx_append n { u2 with currentInsultIndex := idx } idx hidx
        ⟨hwf, hidx, hpend, hdeck, habs⟩
    · rw [if_neg hp]
      exact hreset
  | true =>
    rw [if_neg (by simp)]
    split
    next s1 heq =>
      have hl := load_goodIdx n b? (initDeck rng n s) hn hb
        ⟨hwf0, hcur0, hpend0, hdeck0, habs0⟩
      rw [heq] at hl
      exact hl
    next s1 heq =>
      rw [if_neg (by omega)]
      dsimp only
      have hl := load_goodIdx n b? (initDeck rng n s) hn hb
        ⟨hwf0, hcur0, hpend0, hdeck0, habs0⟩
      rw [heq] at hl
      obtain ⟨hwf, hcur, hpend, hdeck, habs⟩ := hl
      rcases hd : drawFromDeck rng n s1 with ⟨idx, u2⟩
      have hdraw := GoodIdx_draw rng n s1 hn ⟨hwf, hcur, hpend, hdeck, habs⟩
      rw [hd] at hdraw
      obtain ⟨⟨hwf2, hcur2, hpend2, hdeck2, habs2⟩, hidx⟩ := hdraw
      refine GoodIdx_append n _ idx hidx ?_
      refine ⟨⟨hwf2.1, hn, Nat.zero_le n⟩, hidx, hpend2, hdeck2, ?_⟩
      intro x hx
      rw [historySize_zero_abs n _ rfl] at hx
      cases hx

theorem GoodIdx_zeroState (n : Nat) (hn : 0 < n) : GoodIdx n (zeroState n) := by
  refine ⟨⟨by simp [zeroState], hn, Nat.zero_le n⟩, hn, hn, ?_, ?_⟩
  · intro x hx
    rw [List.eq_of_mem_replicate hx]
    exact hn
  · intro x hx
    rw [historySize_zero_abs n _ rfl] at hx
    cases hx

/-- C10 (counterexample): restore never validates the stored history entry
values, only the metadata.  A blob with valid magic, current index, head,
size and cursor but an out-of-range history entry 999 is accepted by the
wake-path initialization at content count 4; the entry is then reachable
through a logical get, a StepBackward operation selects it, and the
completing poll makes it the current index, reaching the renderer's
invalid-index branch with an engine-produced index. -/
theorem C10_engine_indices_in_range_counterexample :
    (insultsInit (fun _ => 0) 4 false true
        (Option.some ⟨NVS_MAGIC, 0, 2, 2, 1, [999, 0, 0, 0]⟩) (zeroState 4)).1 = true ∧
    historyGetAtLogical 4
        (insultsInit (fun _ => 0) 4 false true
          (Option.some ⟨NVS_MAGIC, 0, 2, 2, 1, [999, 0, 0, 0]⟩) (zeroState 4)).2 0
      = Option.some 999 ∧
    ¬ 999 < 4 ∧
    (insultsStartOperation (fun _ => 0) 4 PendingAction.prev 0
        (insultsInit (fun _ => 0) 4 false true
          (Option.some ⟨NVS_MAGIC, 0, 2, 2, 1, [999, 0, 0, 0]⟩) (zeroState 4)).2).1
      = true ∧
    (insultsPoll 4 800
        (insultsStartOperation (fun _ => 0) 4 PendingAction.prev 0
          (insultsInit (fun _ => 0) 4 false true
            (Option.some ⟨NVS_MAGIC, 0, 2, 2, 1, [999, 0, 0, 0]⟩)
            (zeroState 4)).2).2).2.currentInsultIndex = 999 ∧
    renderWarnsInvalidIndex 4 999 = true := by
  decide

/-- C10 (amended): with a positive content count, the in-range invariant
GoodIdx — current index, pending index, all deck entries and every history
entry reachable through a logical get are strictly below the content count —
holds for the pristine boot state and is preserved by initialization, by
restore and by begin of any intent and by poll, PROVIDED every restore blob's
stored history entries are themselves in range (a condition the source never
checks, which is the flaw the counterexample exhibits); consequently indices
produced by those operations never reach the renderer's invalid-index
branch. -/
theorem C10_engine_indices_in_range (rng : Nat → Nat) (n now now2 : Nat)
    (a : PendingAction) (p w : Bool) (b? : Option Blob) (s : EngineState)
    (hn : 0 < n) (hinv : GoodIdx n s)
    (hb : ∀ b, b? = Option.some b → ∀ x ∈ b.hist, x < n)
    (l j : Nat)
    (hget : historyGetAtLogical n (insultsStartOperation rng n a now s).2 l
      = Option.some j) :
    GoodIdx n (zeroState n) ∧
    GoodIdx n (insultsInit rng n p w b? s).2 ∧
    GoodIdx n (loadInsultsStateFromNvs n b? s).2 ∧
    GoodIdx n (insultsStartOperation rng n a now s).2 ∧
    GoodIdx n (insultsPoll n now2 s).2 ∧
    (insultsStartOperation rng n a now s).2.currentInsultIndex < n ∧
    j < n ∧
    renderWarnsInvalidIndex n (insultsPoll n now2 s).2.currentInsultIndex = false := by
  have hbegin := insultsStartOperation_goodIdx rng n a now s hn hinv
  have hpoll := insultsPoll_goodIdx n now2 s hn hinv
  refine ⟨GoodIdx_zeroState n hn,
    insultsInit_goodIdx rng n p w b? s hn hb hinv,
    load_goodIdx n b? s hn hb hinv,
    hbegin, hpoll, hbegin.2.1,
    GoodIdx_reach n _ hn hbegin l j hget, ?_⟩
  have hcur := hpoll.2.1
  simp only [renderWarnsInvalidIndex, Bool.and_eq_false_iff, decide_eq_false_iff_not]
  omega

theorem C10_engine_indices_in_range_witness :
    0 < 1 ∧
    GoodIdx 1 (appendToHistory 1 (zeroState 1) 0) ∧
    historyGetAtLogical 1
        (insultsStartOperation (fun _ => 0) 1 PendingAction.random 0
          (appendToHistory 1 (zeroState 1) 0)).2 0 = Option.some 0 ∧
    GoodIdx 1 (insultsPoll 1 800 (appendToHistory 1 (zeroState 1) 0)).2 :=
  ⟨by decide, by unfold GoodIdx HistWF; decide, by decide,
   (C10_engine_indices_in_range (fun _ => 0) 1 0 800 PendingAction.random false false
      Option.none (appendToHistory 1 (zeroState 1) 0) (by decide)
      (by unfold GoodIdx HistWF; decide) (fun b h => nomatch h) 0 0
      (by decide)).2.2.2.2.1⟩

end Bard
